import Mathlib

/-!
Verification development for the `django-appmail` package.

The Python sources in `appmail/helpers.py` and `appmail/models.py` are embedded
shallowly below: Python dicts become association lists (`List (String × _)`),
nested template-variable trees become the mutually inductive `Tree`/`Ents`,
JSON-like sample-context values become `PyVal`/`PEnts`, querysets become lists
of rows, and fallible operations return `Except String _`.

The Django collaborators that are not part of this repository (the template
engine and its escaping, and the ORM glue) are modelled from the specification
where required; each such definition is marked `Modelled from the spec:` in its
doc comment.  Everything else is a direct translation of the Python source.
-/

namespace Appmail

/-! ## Generic association-list operations (the shallow embedding of Python dicts) -/

/-- Lookup of the value stored at the first occurrence of a key in an
association list; embeds Python `d[k]` / `d.get(k)`. -/
def alookup {κ α : Type} [DecidableEq κ] : List (κ × α) → κ → Option α
  | [], _ => none
  | (k, v) :: l, key => if k = key then some v else alookup l key

/-- Replace the value at the first occurrence of a key, keeping its position;
embeds Python `d[k] = v` for an existing key. -/
def asetv {κ α : Type} [DecidableEq κ] : List (κ × α) → κ → α → List (κ × α)
  | [], _, _ => []
  | (k, v) :: l, key, nv => if k = key then (key, nv) :: l else (k, v) :: asetv l key nv

/-- Python `dict.update`: assign every binding of the second dict into the
first, replacing existing keys in place and appending new ones. -/
def aupdate {κ α : Type} [DecidableEq κ] (d e : List (κ × α)) : List (κ × α) :=
  e.foldl (fun acc kv => if (alookup acc kv.1).isSome then asetv acc kv.1 kv.2 else acc ++ [kv]) d

/-- Keep the first occurrence of every element; embeds the deduplication a
Python `set(...)` performs (the set iteration order itself is unspecified, so
results are compared up to permutation). -/
def dedupKF : List String → List String
  | [] => []
  | s :: l => if s ∈ dedupKF l then dedupKF l else s :: dedupKF l

/-! ## Character-level string utilities

Python string primitives (`split`, `strip`, `upper`) are re-implemented on
`List Char` so that every definition evaluates inside the kernel. -/

/-- Python `s.split(sep)` for a single-character separator, on char lists. -/
def splitSepL (sep : Char) : List Char → List (List Char)
  | [] => [[]]
  | c :: cs =>
    match splitSepL sep cs with
    | [] => [[c]]
    | h :: t => if c = sep then [] :: h :: t else (c :: h) :: t

/-- Python `item.split(".")`, as used by `expand_list`. -/
def splitDot (s : String) : List String :=
  (splitSepL '.' s.data).map (fun l => String.mk l)

/-- Python `s.strip()` restricted to the space character (the only whitespace
the template-variable regex can capture). -/
def stripSpaces (l : List Char) : List Char :=
  ((l.dropWhile (fun c => c = ' ')).reverse.dropWhile (fun c => c = ' ')).reverse

/-- Python `s.upper()` for the ASCII strings produced by the helpers. -/
def upperS (s : String) : String :=
  String.mk (s.data.map Char.toUpper)

/-- Decimal digit character. -/
def digitChar (d : Nat) : Char :=
  if d = 0 then '0' else if d = 1 then '1' else if d = 2 then '2' else if d = 3 then '3'
  else if d = 4 then '4' else if d = 5 then '5' else if d = 6 then '6' else if d = 7 then '7'
  else if d = 8 then '8' else '9'

/-- Decimal digits of a natural number (fuel-indexed so it evaluates in the
kernel; `n + 1` units of fuel always suffice). -/
def natDigits : Nat → Nat → List Char
  | 0, _ => []
  | fuel + 1, n => if n < 10 then [digitChar n] else natDigits fuel (n / 10) ++ [digitChar (n % 10)]

/-- Python `str(n)` for integers. -/
def intStr : Int → String
  | .ofNat n => String.mk (natDigits (n + 1) n)
  | .negSucc n => String.mk ('-' :: natDigits (n + 2) (n + 1))

/-! ## A total order on keys

Canonical forms of Python dicts sort their keys; the comparison is a
lexicographic order on the code points, implemented so that it evaluates in
the kernel. -/

/-- Lexicographic comparison of char lists by code point. -/
def lexLe : List Char → List Char → Bool
  | [], _ => true
  | _ :: _, [] => false
  | a :: as, b :: bs =>
    if a.toNat < b.toNat then true
    else if b.toNat < a.toNat then false
    else lexLe as bs

/-- Lexicographic comparison of strings. -/
def strLeB (a b : String) : Bool := lexLe a.data b.data

/-- Insert one entry into a key-sorted association list. -/
def ordIns {α : Type} (x : String × α) : List (String × α) → List (String × α)
  | [] => [x]
  | y :: l => if strLeB x.1 y.1 then x :: y :: l else y :: ordIns x l

/-- Insertion sort of an association list by key. -/
def sortK {α : Type} : List (String × α) → List (String × α)
  | [] => []
  | x :: l => ordIns x (sortK l)

/-! ## Nested dict-of-dicts trees (`expand_list` output) and JSON-like values

`helpers.expand_list` builds a Python dict whose values are themselves dicts,
and `helpers.fill_leaf_values` turns the empty-dict leaves into strings.  The
two shapes are embedded as mutually inductive types so every function on them
is structurally recursive (and therefore evaluates in the kernel). -/

mutual
/-- A Python dict all of whose values are again dicts. -/
inductive Tree where
  | node : Ents → Tree
/-- The ordered entries of a `Tree` dict. -/
inductive Ents where
  | nil : Ents
  | cons : String → Tree → Ents → Ents
end

/-- View of `Ents` as an association list. -/
def Ents.toList : Ents → List (String × Tree)
  | .nil => []
  | .cons k t es => (k, t) :: es.toList

/-- Build `Ents` from an association list. -/
def Ents.ofList : List (String × Tree) → Ents
  | [] => .nil
  | (k, t) :: l => .cons k t (Ents.ofList l)

/-- The entries of a dict tree, as an association list. -/
def Tree.entries : Tree → List (String × Tree)
  | .node es => es.toList

/-- Build a dict tree from an association list of children. -/
def Tree.ofL (l : List (String × Tree)) : Tree :=
  .node (Ents.ofList l)

mutual
/-- A JSON-like Python value: a string or a dict. -/
inductive PyVal where
  | str : String → PyVal
  | dict : PEnts → PyVal
/-- The ordered entries of a `PyVal` dict. -/
inductive PEnts where
  | nil : PEnts
  | cons : String → PyVal → PEnts → PEnts
end

/-- View of `PEnts` as an association list. -/
def PEnts.toList : PEnts → List (String × PyVal)
  | .nil => []
  | .cons k v es => (k, v) :: es.toList

/-- Build `PEnts` from an association list. -/
def PEnts.ofList : List (String × PyVal) → PEnts
  | [] => .nil
  | (k, v) :: l => .cons k v (PEnts.ofList l)

/-- Build a `PyVal` dict from an association list. -/
def PyVal.ofL (l : List (String × PyVal)) : PyVal :=
  .dict (PEnts.ofList l)

/-! ## Canonical forms

Python compares dicts by key set and per-key values, ignoring insertion order.
The canonical form sorts every dict level by key, so that two dicts are equal
as Python values exactly when their canonical forms are equal (for the
duplicate-free dicts all these operations produce). -/

mutual
/-- Canonical (key-sorted) form of a dict tree. -/
def canonT : Tree → Tree
  | .node es => .node (Ents.ofList (sortK (canonTL es)))
/-- Canonical forms of all entries of a dict tree. -/
def canonTL : Ents → List (String × Tree)
  | .nil => []
  | .cons k t es => (k, canonT t) :: canonTL es
end

mutual
/-- Canonical (key-sorted) form of a JSON-like value. -/
def canonP : PyVal → PyVal
  | .str a => .str a
  | .dict es => .dict (PEnts.ofList (sortK (canonPL es)))
/-- Canonical forms of all entries of a `PyVal` dict. -/
def canonPL : PEnts → List (String × PyVal)
  | .nil => []
  | .cons k v es => (k, canonP v) :: canonPL es
end

/-! ## `appmail/helpers.py` -/

/-- One character of the character class of the `TEMPLATE_VARS` regex
`{{([ ._[a-z]*)}}`: a space, dot, underscore, left square bracket, or
lowercase ASCII letter. -/
def classChar (c : Char) : Bool :=
  c = ' ' || c = '.' || c = '_' || c = '[' || ('a' ≤ c && c ≤ 'z')

/-- Scanner for `TEMPLATE_VARS.findall`: at each position, `{{`, a maximal run
of class characters and an immediate `}}` produce a match (the run), and the
scan resumes after the closing braces; otherwise the scan advances one
character, exactly as the regex engine retries from the next offset.  The
fuel argument makes the recursion structural; the input length is always
enough fuel. -/
def findVarsF : Nat → List Char → List (List Char)
  | 0, _ => []
  | _ + 1, [] => []
  | fuel + 1, '{' :: '{' :: rest =>
    match rest.dropWhile classChar with
    | '}' :: '}' :: rest2 => rest.takeWhile classChar :: findVarsF fuel rest2
    | _ => findVarsF fuel ('{' :: rest)
  | fuel + 1, _ :: cs => findVarsF fuel cs

/-- Embedding of `helpers.extract_vars`: regex-scan the content, strip each match, and
deduplicate. -/
def extract_vars (content : String) : List String :=
  dedupKF (((findVarsF content.data.length content.data).map stripSpaces).map
    (fun l => String.mk l))

/-- One `setdefault` walk of `helpers.expand_list`: descend along the dotted
path, creating empty dicts for missing keys. -/
def insertP : Tree → List String → Tree
  | t, [] => t
  | t, a :: ps =>
    match alookup t.entries a with
    | some sub => Tree.ofL (asetv t.entries a (insertP sub ps))
    | none => Tree.ofL (t.entries ++ [(a, insertP (Tree.ofL []) ps)])

/-- The loop body of `helpers.expand_list`: insert one dotted item. -/
def insert_item (t : Tree) (item : String) : Tree :=
  insertP t (splitDot item)

/-- Embedding of `helpers.expand_list`: convert a list of dotted paths into a nested dict
with an empty dict at every leaf. -/
def expand_list (l : List String) : Tree :=
  l.foldl insert_item (Tree.ofL [])

mutual
/-- Embedding of `helpers.fill_leaf_values`: replace every empty-dict leaf with the
uppercased name of its own key. -/
def fill_leaf_values : Tree → PyVal
  | .node es => .dict (PEnts.ofList (fillEnts es))
/-- Entry-wise worker of `fill_leaf_values`. -/
def fillEnts : Ents → List (String × PyVal)
  | .nil => []
  | .cons k t es =>
    (k, match t with
        | .node .nil => .str (upperS k)
        | _ => fill_leaf_values t) :: fillEnts es
end

/-- Embedding of `helpers.get_context`: extract the template variables, expand them into a
tree, and fill the leaves. -/
def get_context (content : String) : PyVal :=
  fill_leaf_values (expand_list (extract_vars content))

/-- Embedding of `helpers.merge_dicts`: merge dicts left to right, later keys overriding. -/
def merge_dicts (dicts : List (List (String × String))) : List (String × String) :=
  dicts.foldl aupdate []

/-- Embedding of `helpers.patch_context`: the caller context is the base and each context
processor output is applied on top of it in list order. -/
def patch_context (context : List (String × String))
    (processors : List (List (String × String))) : List (String × String) :=
  merge_dicts (context :: processors)

/-! ## Django template engine collaborator

Modelled from the spec: "Template engine collaborator: given a template string
and a context mapping, renders final text, with configurable autoescaping".
A template is literal text interleaved with `{{ variable }}` references; a
reference is resolved against the context mapping by its stripped dotted name
(a missing variable renders as the empty string, Django's default
`string_if_invalid`), and with autoescaping on the substituted value is
HTML-escaped. -/

/-- Django `django.utils.html.escape` on one character: `&`, `<`, `>`, double
and single quotes become entities; every other character is unchanged. -/
def escapeChar (c : Char) : List Char :=
  if c = '&' then "&amp;".data
  else if c = '<' then "&lt;".data
  else if c = '>' then "&gt;".data
  else if c = '"' then "&quot;".data
  else if c = Char.ofNat 39 then "&#x27;".data
  else [c]

/-- Django `django.utils.html.escape` on a string. -/
def escapeHtml (s : String) : String :=
  String.mk (s.data.foldr (fun c acc => escapeChar c ++ acc) [])

/-- Split a char list at the first `}}`, returning the part before it and the
part after it, or `none` when the braces never close. -/
def splitClose : List Char → Option (List Char × List Char)
  | [] => none
  | c :: cs =>
    if c = '}' then
      match cs with
      | '}' :: rest => some ([], rest)
      | _ => (splitClose cs).map (fun p => (c :: p.1, p.2))
    else (splitClose cs).map (fun p => (c :: p.1, p.2))

/-- Fuel-indexed renderer: copy literal characters, and replace each
`{{ name }}` with the context value of the stripped name (escaped when
`autoescape` holds).  An unclosed `{{` is emitted verbatim, as Django's lexer
leaves unmatched text untouched.  The input length is always enough fuel. -/
def renderF : Nat → List Char → List (String × String) → Bool → List Char
  | 0, _, _, _ => []
  | _ + 1, [], _, _ => []
  | fuel + 1, '{' :: '{' :: rest, ctx, autoescape =>
    match splitClose rest with
    | some (inner, rem) =>
      (let v := (alookup ctx (String.mk (stripSpaces inner))).getD ""
       (if autoescape then escapeHtml v else v).data) ++ renderF fuel rem ctx autoescape
    | none => '{' :: '{' :: rest
  | fuel + 1, c :: cs, ctx, autoescape => c :: renderF fuel cs ctx autoescape

/-- Render a template string against a context, with or without autoescaping;
this is the model of `django.template.Template(t).render(Context(ctx, ae))`. -/
def renderTemplate (tmpl : String) (context : List (String × String))
    (autoescape : Bool) : String :=
  String.mk (renderF tmpl.data.length tmpl.data context autoescape)

/-! ## `appmail/settings.py` defaults -/

/-- Default of `APPMAIL_VALIDATE_ON_SAVE`. -/
def VALIDATE_ON_SAVE : Bool := true

/-- Default of `APPMAIL_ADD_HEADERS`. -/
def ADD_EXTRA_HEADERS : Bool := true

/-- Default of `APPMAIL_LOG_SENT_EMAILS`. -/
def LOG_SENT_EMAILS : Bool := true

/-- Default of `APPMAIL_CONTEXT_PROCESSORS`: no processors, so each entry of
this list is the output mapping of one configured processor (none by
default). -/
def CONTEXT_PROCESSORS : List (List (String × String)) := []

/-! ## `appmail/models.py` — `EmailTemplate` -/

/-- The `EmailTemplate` model row.  `pk` is `none` for an unsaved instance. -/
structure EmailTemplate where
  pk : Option Nat := none
  name : String := ""
  description : String := ""
  language : String := "en-us"
  version : Int := 0
  subject : String := ""
  body_text : String := ""
  body_html : String := ""
  test_context : PyVal := .dict .nil
  is_active : Bool := true
  from_email : String := "webmaster@example.com"
  reply_to : String := "webmaster@example.com"
  supports_attachments : Bool := false

/-- Embedding of `EmailTemplate.reply_to_list`: split the comma-separated field and strip
each address. -/
def EmailTemplate.reply_to_list (t : EmailTemplate) : List String :=
  (splitSepL ',' t.reply_to.data).map (fun l => String.mk (stripSpaces l))

/-- Embedding of `EmailTemplate.extra_headers`: the `X-Appmail-Template` header value. -/
def EmailTemplate.extra_headers (t : EmailTemplate) : List (String × String) :=
  [("X-Appmail-Template",
    "name=" ++ t.name ++ "; language=" ++ t.language ++ "; version=" ++ intStr t.version)]

/-- Embedding of `EmailTemplate.render_subject`: render the subject template with
`autoescape=False`. -/
def EmailTemplate.render_subject (t : EmailTemplate)
    (context : List (String × String)) : String :=
  renderTemplate t.subject (patch_context context CONTEXT_PROCESSORS) false

/-- Embedding of `EmailTemplate.render_body`: render the plain-text body with
`autoescape=False`, the HTML body with the engine default (autoescape on),
and fail with `ValueError` on any other content type. -/
def EmailTemplate.render_body (t : EmailTemplate) (context : List (String × String))
    (content_type : String) : Except String String :=
  if ¬(content_type = "text/plain" ∨ content_type = "text/html") then
    .error ("Invalid content type. Value supplied: " ++ content_type)
  else if content_type = "text/plain" then
    .ok (renderTemplate t.body_text (patch_context context CONTEXT_PROCESSORS) false)
  else
    .ok (renderTemplate t.body_html (patch_context context CONTEXT_PROCESSORS) true)

/-! ## `EmailTemplate.clean` validation

Modelled from the spec for the part that is Django's: rendering a template
may raise `TemplateDoesNotExist` (`notFound`), `TemplateSyntaxError`
(`invalid`), or an arbitrary other exception (`fatal`); the embedded renderer
itself is total, so the three render attempts of `clean` are abstracted by
their outcomes.  The classification and aggregation logic below follows
`EmailTemplate.clean` / `_validate_body` / `_validate_subject` in the
source. -/

/-- Outcome of one render attempt of `clean`. -/
inductive RenderOutcome where
  | ok : RenderOutcome
  | notFound : String → RenderOutcome
  | invalid : String → RenderOutcome
  | fatal : String → RenderOutcome

/-- Shared body of `_validate_subject` / `_validate_body`: convert the two
recoverable exception classes into a field-scoped message, let any other
exception propagate (`Except.error`). -/
def validate_field (field : String) : RenderOutcome → Except String (List (String × String))
  | .ok => .ok []
  | .notFound m => .ok [(field, "Template does not exist: " ++ m)]
  | .invalid m => .ok [(field, m)]
  | .fatal m => .error m

/-- Embedding of `EmailTemplate._validate_body`: resolve the field name from the content
type, then classify the render outcome. -/
def validate_body (content_type : String) (r : RenderOutcome) :
    Except String (List (String × String)) :=
  if content_type = "text/plain" then validate_field "body_text" r
  else if content_type = "text/html" then validate_field "body_html" r
  else .error "Invalid template content_type."

/-- Embedding of `EmailTemplate._validate_subject`. -/
def validate_subject (r : RenderOutcome) : Except String (List (String × String)) :=
  validate_field "subject" r

/-- Result of `EmailTemplate.clean`. -/
inductive CleanResult where
  | ok : CleanResult
  | validationError : List (String × String) → CleanResult
  | uncaught : String → CleanResult

/-- Embedding of `EmailTemplate.clean`: validate the plain body, the HTML body and the
subject in that order (each against an empty context), aggregate every
field-scoped message, and raise one combined `ValidationError` when any field
failed; a non-recoverable exception propagates immediately. -/
def clean (body_text_render body_html_render subject_render : RenderOutcome) : CleanResult :=
  match validate_body "text/plain" body_text_render with
  | .error m => .uncaught m
  | .ok e1 =>
    match validate_body "text/html" body_html_render with
    | .error m => .uncaught m
    | .ok e2 =>
      match validate_subject subject_render with
      | .error m => .uncaught m
      | .ok e3 =>
        match e1 ++ e2 ++ e3 with
        | [] => .ok
        | errs => .validationError errs

/-- Embedding of `EmailTemplate.clean` tied to the template fields: `engine`
is the behavior of the Django engine on one template source string rendered
against the empty context; `clean` classifies the outcomes of the plain body,
the HTML body and the subject, in the source's order. -/
def template_clean (engine : String → RenderOutcome) (t : EmailTemplate) : CleanResult :=
  clean (engine t.body_text) (engine t.body_html) (engine t.subject)

/-! ## `AppmailMultiAlternatives` -/

/-- The keyword arguments accepted by `EmailMultiAlternatives`; a field is
`some _` exactly when the caller supplied that keyword. -/
structure EmailKwargs where
  subject : Option String := none
  body : Option String := none
  alternatives : Option (List (String × String)) := none
  attachments : Option (List String) := none
  «to» : List String := []
  cc : List String := []
  bcc : List String := []
  reply_to : Option (List String) := none
  from_email : Option String := none
  headers : Option (List (String × String)) := none
  user : Option Nat := none

/-- Python truthiness of an optional list (`None` and `[]` are falsy). -/
def truthyList {α : Type} : Option (List α) → Bool
  | some (_ :: _) => true
  | _ => false

/-- A composed `AppmailMultiAlternatives` message: the rendered subject,
plain body and HTML alternative, plus the envelope fields, the source
template and the rendering context. -/
structure AppmailMultiAlternatives where
  template : EmailTemplate
  context : List (String × String)
  user : Option Nat
  subject : String
  body : String
  html : String
  alternatives : List (String × String)
  «to» : List String
  cc : List String
  bcc : List String
  reply_to : List String
  from_email : String
  headers : List (String × String)
  attachments : List String

/-- Embedding of `AppmailMultiAlternatives.__init__`: derive subject, body and the single
HTML alternative from the template and context.  The template reference is
optional because `LoggedMessage.template` is nullable; dereferencing a null
template raises `AttributeError` exactly as the Python attribute access
would.  Envelope fields absent from the kwargs default to empty values here;
the mail framework's own envelope defaults (such as
`settings.DEFAULT_FROM_EMAIL`) belong to Django outside this model. -/
def AppmailMultiAlternatives.init (template : Option EmailTemplate)
    (context : List (String × String)) (user : Option Nat) (email_kwargs : EmailKwargs) :
    Except String AppmailMultiAlternatives :=
  match template with
  | none => .error "AttributeError: NoneType object has no attribute render_subject"
  | some t =>
    let html := renderTemplate t.body_html (patch_context context CONTEXT_PROCESSORS) true
    .ok { template := t
          context := context
          user := user
          subject := t.render_subject context
          body := renderTemplate t.body_text (patch_context context CONTEXT_PROCESSORS) false
          html := html
          alternatives := [(html, "text/html")]
          «to» := email_kwargs.«to»
          cc := email_kwargs.cc
          bcc := email_kwargs.bcc
          reply_to := email_kwargs.reply_to.getD []
          from_email := email_kwargs.from_email.getD ""
          headers := email_kwargs.headers.getD []
          attachments := email_kwargs.attachments.getD [] }

/-- Embedding of `EmailTemplate.create_message`: reject the template-derived keywords and
unsupported attachments, default the sender and reply-to from the template,
optionally add the identifying header, and build the message. -/
def EmailTemplate.create_message (t : EmailTemplate) (context : List (String × String))
    (email_kwargs : EmailKwargs) : Except String AppmailMultiAlternatives :=
  if email_kwargs.subject.isSome then
    .error "Invalid argument: subject is set from the template."
  else if email_kwargs.body.isSome then
    .error "Invalid argument: body is set from the template."
  else if email_kwargs.alternatives.isSome then
    .error "Invalid argument: alternatives is set from the template."
  else if truthyList email_kwargs.attachments && !t.supports_attachments then
    .error "Email template does not support attachments."
  else
    let kw1 : EmailKwargs :=
      { email_kwargs with
        reply_to := some (match email_kwargs.reply_to with
          | some (a :: rest) => a :: rest
          | _ => t.reply_to_list)
        from_email := some (match email_kwargs.from_email with
          | some s => if s = "" then t.from_email else s
          | none => t.from_email)
        headers :=
          if ADD_EXTRA_HEADERS then
            some (aupdate (email_kwargs.headers.getD []) t.extra_headers)
          else email_kwargs.headers }
    AppmailMultiAlternatives.init (some t) context kw1.user kw1

/-! ## `LoggedMessage` and the send pipeline -/

/-- A `LoggedMessage` audit row (the timestamp column, defaulted to the wall
clock, is outside the embedded state).  The template reference is nullable:
the foreign key is `on_delete=SET_NULL`. -/
structure LoggedMessage where
  «to» : String
  user : Option Nat := none
  template : Option EmailTemplate := none
  subject : String := ""
  body : String := ""
  html : String := ""
  context : List (String × String) := []

/-- Embedding of `AppmailMultiAlternatives.send`: the transport collaborator (Django
`EmailMultiAlternatives.send`, reached with `fail_silently`) reports
`transport_sent`, the number of messages sent.  If logging is off the count
is returned as is; if nothing was sent, `0` is returned; otherwise one
`LoggedMessage` row is appended per address of `to`, carrying the message's
rendered subject, plain body, HTML body and rendering context. -/
def AppmailMultiAlternatives.send (m : AppmailMultiAlternatives)
    (log_sent_emails : Bool) (_fail_silently : Bool) (transport_sent : Nat)
    (log : List LoggedMessage) : Nat × List LoggedMessage :=
  let sent := transport_sent
  if !log_sent_emails then (sent, log)
  else if sent = 0 then (0, log)
  else
    (sent,
     log ++ m.«to».map (fun recipient_email =>
       { «to» := recipient_email
         user := m.user
         template := some m.template
         subject := m.subject
         body := m.body
         html := m.html
         context := m.context }))

/-- Embedding of `LoggedMessage.as_message_object`: rebuild a message from the stored
template reference, context, user and single recipient. -/
def LoggedMessage.as_message_object (lm : LoggedMessage) :
    Except String AppmailMultiAlternatives :=
  AppmailMultiAlternatives.init lm.template lm.context lm.user { «to» := [lm.«to»] }

/-- Embedding of `LoggedMessage.resend`: rebuild the message and run the send pipeline on
it. -/
def LoggedMessage.resend (lm : LoggedMessage) (log_sent_emails : Bool)
    (fail_silently : Bool) (transport_sent : Nat) (log : List LoggedMessage) :
    Except String (Nat × List LoggedMessage) :=
  (lm.as_message_object).map (fun m => m.send log_sent_emails fail_silently transport_sent log)

/-! ## Template storage -/

/-- The `EmailTemplate` table: rows keyed by primary key, plus the next key
the storage will assign. -/
structure TemplateDb where
  rows : List (Nat × EmailTemplate) := []
  next_pk : Nat := 1

/-- Embedding of `EmailTemplate.save`: on first save (no `pk`) the sample `test_context`
is derived from the concatenated subject and bodies and a fresh primary key
is assigned; on a later save the existing row is updated in place (a pk
absent from the table leaves it unchanged; no claim depends on that path).
`clean()` also runs here by default; the embedded renderer is total, so the
validation never raises and contributes nothing to the stored state. -/
def EmailTemplate.save (t : EmailTemplate) (db : TemplateDb) : EmailTemplate × TemplateDb :=
  match t.pk with
  | none =>
    let t1 := { t with test_context := get_context (t.subject ++ t.body_text ++ t.body_html) }
    let t2 := { t1 with pk := some db.next_pk }
    (t2, { rows := db.rows ++ [(db.next_pk, t2)], next_pk := db.next_pk + 1 })
  | some k =>
    (t, { db with rows := asetv db.rows k t })

/-- Embedding of `EmailTemplate.clone`: clear the primary key, bump the version, and save
(which inserts a fresh row). -/
def EmailTemplate.clone (t : EmailTemplate) (db : TemplateDb) :
    EmailTemplate × TemplateDb :=
  EmailTemplate.save { t with pk := none, version := t.version + 1 } db

/-- Embedding of `EmailTemplateQuerySet.version`: `self.active().get(name=..., language=...,
version=...)` — note the `active()` filter; `get` fails with `DoesNotExist`
when no row matches and with `MultipleObjectsReturned` when several do. -/
def EmailTemplateQuerySet.version (db : TemplateDb) (name : String) (ver : Int)
    (language : String) : Except String EmailTemplate :=
  match (db.rows.map Prod.snd).filter
      (fun t => t.is_active && t.name == name && t.language == language && t.version == ver) with
  | [] => .error "EmailTemplate matching query does not exist."
  | [t] => .ok t
  | _ => .error "get returned more than one EmailTemplate."

/-! ## Proof infrastructure definitions -/

/-- The per-entry action of `fill_leaf_values`: an empty-dict child becomes
the uppercased key, any other child is filled recursively. -/
def fillv (k : String) (t : Tree) : PyVal :=
  match t with
  | .node .nil => .str (upperS k)
  | _ => fill_leaf_values t

/-- Well-formedness of a dict tree: every dict level has pairwise-distinct
keys.  Every tree `expand_list` builds is well formed. -/
inductive WFT : Tree → Prop where
  | node : ∀ es, ((Ents.toList es).map Prod.fst).Nodup →
      (∀ p ∈ es.toList, WFT p.2) → WFT (.node es)

/-- Key comparison on entries, as a `Bool`. -/
def keyLeB {α : Type} (p q : String × α) : Bool := strLeB p.1 q.1

/-- Strict key order on entries (used for uniqueness of sorted forms). -/
def keyLt {α : Type} (p q : String × α) : Prop := keyLeB p q = true ∧ p.1 ≠ q.1

/-- The identity triple of a template row. -/
def templateKey (t : EmailTemplate) : String × String × Int :=
  (t.name, t.language, t.version)

/-! ## Concrete fixtures used by witnesses and counterexamples -/

/-- The round-trip template of the autoescaping scenario. -/
def tmplC2 : EmailTemplate :=
  { subject := "Hello {{ first_name }}"
    body_text := "Hello {{ first_name }}"
    body_html := "<h1>Hello {{ first_name }}</h1>" }

/-- The round-trip context of the autoescaping scenario. -/
def ctxC2 : List (String × String) := [("first_name", "Test & Company")]

/-- The sample context the spec expects for references `{{a}}` and `{{b.c}}`. -/
def sampleAB : PyVal :=
  .dict (.cons "a" (.str "A") (.cons "b" (.dict (.cons "c" (.str "C") .nil)) .nil))

/-- A concrete composed message with two recipients. -/
def msgC1 : AppmailMultiAlternatives :=
  { template := {}
    context := [("k", "v")]
    user := some 7
    subject := "s"
    body := "b"
    html := "<p>h</p>"
    alternatives := [("<p>h</p>", "text/html")]
    «to» := ["a@example.com", "b@example.com"]
    cc := []
    bcc := []
    reply_to := []
    from_email := "f@example.com"
    headers := []
    attachments := [] }

/-- A saved, active template. -/
def tmplSaved : EmailTemplate := { pk := some 1, name := "welcome", language := "en" }

/-- A one-row table holding `tmplSaved`. -/
def dbSaved : TemplateDb := { rows := [(1, tmplSaved)], next_pk := 2 }

/-- A saved template that exactly matches the lookup triple but is inactive. -/
def tmplInactive : EmailTemplate :=
  { pk := some 1, name := "welcome", language := "en", is_active := false }

/-- A one-row table holding only the inactive template. -/
def dbInactive : TemplateDb := { rows := [(1, tmplInactive)], next_pk := 2 }

/-- A logged message whose source template has been deleted. -/
def lmOrphan : LoggedMessage := { «to» := "x@example.com", template := none }

/-- Envelope kwargs carrying an empty attachments list. -/
def kwEmptyAttach : EmailKwargs := { attachments := some [] }

/-- Envelope kwargs carrying one attachment. -/
def kwOneAttach : EmailKwargs := { attachments := some ["file.txt"] }

/-- Envelope kwargs supplying the forbidden `subject` keyword. -/
def kwSubject : EmailKwargs := { subject := some "boom" }

/-- A template whose three content fields are one bare variable reference. -/
def tmplVar : EmailTemplate :=
  { subject := "{{first_name}}"
    body_text := "{{first_name}}"
    body_html := "{{first_name}}" }

/-! # Theorems

The lemmas below build up to one theorem (plus witness or counterexample
material) per specification claim. -/

/-! ## Association lists -/

theorem alookup_append_of_none {κ α : Type} [DecidableEq κ]
    (l₁ l₂ : List (κ × α)) (k : κ) (h : alookup l₁ k = none) :
    alookup (l₁ ++ l₂) k = alookup l₂ k := by
  induction l₁ with
  | nil => simp [alookup]
  | cons p l ih =>
    cases p with
    | mk k' v =>
      simp only [alookup] at h ⊢
      by_cases hk : k' = k
      · simp [hk] at h
      · simpa [hk] using ih (by simpa [hk] using h)

theorem alookup_append_of_some {κ α : Type} [DecidableEq κ]
    (l₁ l₂ : List (κ × α)) (k : κ) (v : α) (h : alookup l₁ k = some v) :
    alookup (l₁ ++ l₂) k = some v := by
  induction l₁ with
  | nil => simp [alookup] at h
  | cons p l ih =>
    cases p with
    | mk k' v' =>
      simp only [alookup] at h ⊢
      by_cases hk : k' = k
      · simpa [hk] using h
      · simpa [hk] using ih (by simpa [hk] using h)

theorem alookup_eq_none_iff {κ α : Type} [DecidableEq κ]
    (l : List (κ × α)) (k : κ) : alookup l k = none ↔ k ∉ l.map Prod.fst := by
  induction l with
  | nil => simp [alookup]
  | cons p l ih =>
    cases p with
    | mk k' v =>
      by_cases hk : k' = k
      · simp [alookup, hk]
      · simp [alookup, hk, ih, Ne.symm hk]

theorem alookup_isSome_iff {κ α : Type} [DecidableEq κ]
    (l : List (κ × α)) (k : κ) : (alookup l k).isSome ↔ k ∈ l.map Prod.fst := by
  rcases h : alookup l k with _ | v
  · simpa [h] using (alookup_eq_none_iff l k).mp h
  · simp only [Option.isSome_some, true_iff]
    by_contra hk
    rw [(alookup_eq_none_iff l k).mpr hk] at h
    exact Option.noConfusion h

theorem alookup_mem {κ α : Type} [DecidableEq κ]
    (l : List (κ × α)) (k : κ) (v : α) (h : alookup l k = some v) : (k, v) ∈ l := by
  induction l with
  | nil => simp [alookup] at h
  | cons p l ih =>
    cases p with
    | mk k' v' =>
      simp only [alookup] at h
      by_cases hk : k' = k
      · subst hk
        simp only [if_pos rfl] at h
        cases h
        exact List.mem_cons_self _ _
      · exact List.mem_cons_of_mem _ (ih (by simpa [hk] using h))

theorem mem_alookup_of_nodup {κ α : Type} [DecidableEq κ]
    (l : List (κ × α)) (k : κ) (v : α) (hn : (l.map Prod.fst).Nodup)
    (h : (k, v) ∈ l) : alookup l k = some v := by
  induction l with
  | nil => simp at h
  | cons p l ih =>
    cases p with
    | mk k' v' =>
    simp only [List.map_cons, List.nodup_cons] at hn
    rcases List.mem_cons.mp h with h1 | h1
    · cases h1
      simp [alookup]
    · have hk : k' ≠ k := by
        intro he
        exact hn.1 (he ▸ (List.mem_map.mpr ⟨(k, v), h1, rfl⟩))
      simpa [alookup, hk] using ih hn.2 h1

theorem alookup_perm_of_nodup {κ α : Type} [DecidableEq κ]
    (l₁ l₂ : List (κ × α)) (k : κ) (hn : (l₁.map Prod.fst).Nodup)
    (hp : l₁.Perm l₂) : alookup l₁ k = alookup l₂ k := by
  have hn₂ : (l₂.map Prod.fst).Nodup := ((hp.map Prod.fst).nodup_iff).mp hn
  rcases h : alookup l₁ k with _ | v
  · rcases h₂ : alookup l₂ k with _ | v₂
    · rfl
    · have := alookup_mem l₂ k v₂ h₂
      have hmem : (k, v₂) ∈ l₁ := hp.symm.subset this
      rw [mem_alookup_of_nodup l₁ k v₂ hn hmem] at h
      exact Option.noConfusion h
  · have hmem : (k, v) ∈ l₂ := hp.subset (alookup_mem l₁ k v h)
    exact (mem_alookup_of_nodup l₂ k v hn₂ hmem).symm

theorem alookup_map_value {κ α β : Type} [DecidableEq κ]
    (l : List (κ × α)) (f : α → β) (k : κ) :
    alookup (l.map (fun p => (p.1, f p.2))) k = (alookup l k).map f := by
  induction l with
  | nil => simp [alookup]
  | cons p l ih =>
    cases p with
    | mk k' v =>
      by_cases hk : k' = k
      · simp [alookup, hk]
      · simp [alookup, hk, ih]

theorem map_fst_asetv {κ α : Type} [DecidableEq κ]
    (l : List (κ × α)) (k : κ) (v : α) :
    (asetv l k v).map Prod.fst = l.map Prod.fst := by
  induction l with
  | nil => simp [asetv]
  | cons p l ih =>
    cases p with
    | mk k' v' =>
      by_cases hk : k' = k
      · simp [asetv, hk]
      · simp [asetv, hk, ih]

theorem alookup_asetv_self {κ α : Type} [DecidableEq κ]
    (l : List (κ × α)) (k : κ) (v : α) (h : k ∈ l.map Prod.fst) :
    alookup (asetv l k v) k = some v := by
  induction l with
  | nil => simp at h
  | cons p l ih =>
    cases p with
    | mk k' v' =>
      by_cases hk : k' = k
      · simp [asetv, hk, alookup]
      · have : k ∈ l.map Prod.fst := by
          simpa [hk, Ne.symm hk] using h
        simpa [asetv, hk, alookup] using ih this

theorem alookup_asetv_other {κ α : Type} [DecidableEq κ]
    (l : List (κ × α)) (k k' : κ) (v : α) (h : k' ≠ k) :
    alookup (asetv l k v) k' = alookup l k' := by
  induction l with
  | nil => simp [asetv]
  | cons p l ih =>
    cases p with
    | mk k₀ v₀ =>
      by_cases hk : k₀ = k
      · simp [asetv, hk, alookup, Ne.symm h]
      · simp [asetv, hk, alookup, ih]

theorem mem_asetv {κ α : Type} [DecidableEq κ]
    (l : List (κ × α)) (k : κ) (v : α) (p : κ × α) (h : p ∈ asetv l k v) :
    p = (k, v) ∨ p ∈ l := by
  induction l with
  | nil => simp [asetv] at h
  | cons q l ih =>
    cases q with
    | mk k₀ v₀ =>
      by_cases hk : k₀ = k
      · simp only [asetv, hk, if_pos rfl] at h
        rcases List.mem_cons.mp h with h1 | h1
        · exact Or.inl h1
        · exact Or.inr (List.mem_cons_of_mem _ h1)
      · simp only [asetv, hk, if_neg hk] at h
        rcases List.mem_cons.mp h with h1 | h1
        · exact Or.inr (h1 ▸ List.mem_cons_self _ _)
        · rcases ih h1 with h2 | h2
          · exact Or.inl h2
          · exact Or.inr (List.mem_cons_of_mem _ h2)

/-! ## Deduplication -/

theorem dedupKF_subset (l : List String) : ∀ x ∈ dedupKF l, x ∈ l := by
  induction l with
  | nil => simp [dedupKF]
  | cons s l ih =>
    by_cases hs : s ∈ dedupKF l
    · simp only [dedupKF, if_pos hs]
      exact fun x hx => List.mem_cons_of_mem _ (ih x hx)
    · simp only [dedupKF, if_neg hs]
      intro x hx
      rcases List.mem_cons.mp hx with h1 | h1
      · exact h1 ▸ List.mem_cons_self _ _
      · exact List.mem_cons_of_mem _ (ih x h1)

theorem mem_dedupKF (l : List String) (a : String) : a ∈ dedupKF l ↔ a ∈ l := by
  induction l with
  | nil => simp [dedupKF]
  | cons s l ih =>
    by_cases hs : s ∈ dedupKF l
    · simp only [dedupKF, if_pos hs]
      rw [ih]
      constructor
      · exact fun h => List.mem_cons_of_mem _ h
      · intro h
        rcases List.mem_cons.mp h with h1 | h1
        · exact h1 ▸ (dedupKF_subset l s hs)
        · exact h1
    · simp [dedupKF, if_neg hs, ih]

theorem nodup_dedupKF (l : List String) : (dedupKF l).Nodup := by
  induction l with
  | nil => simp [dedupKF]
  | cons s l ih =>
    by_cases hs : s ∈ dedupKF l
    · simpa [dedupKF, if_pos hs] using ih
    · simpa [dedupKF, if_neg hs] using ⟨hs, ih⟩

/-! ## The lexicographic key order -/

theorem lexLe_total : ∀ a b, lexLe a b = true ∨ lexLe b a = true := by
  intro a
  induction a with
  | nil => intro b; left; rfl
  | cons x xs ih =>
    intro b
    cases b with
    | nil => right; rfl
    | cons y ys =>
      by_cases h1 : x.toNat < y.toNat
      · left; simp [lexLe, h1]
      · by_cases h2 : y.toNat < x.toNat
        · right; simp [lexLe, h1, h2]
        · rcases ih ys with h | h
          · left; simp [lexLe, h1, h2, h]
          · right; simp [lexLe, h1, h2, h]

theorem lexLe_trans : ∀ a b c, lexLe a b = true → lexLe b c = true → lexLe a c = true := by
  intro a
  induction a with
  | nil => intro b c _ _; rfl
  | cons x xs ih =>
    intro b c hab hbc
    cases b with
    | nil => simp [lexLe] at hab
    | cons y ys =>
      cases c with
      | nil => simp [lexLe] at hbc
      | cons z zs =>
        simp only [lexLe] at hab hbc ⊢
        by_cases hxy : x.toNat < y.toNat
        · by_cases hyz : y.toNat < z.toNat
          · simp [show x.toNat < z.toNat from lt_trans hxy hyz]
          · by_cases hzy : z.toNat < y.toNat
            · simp [hyz, hzy] at hbc
            · have hyzeq : y.toNat = z.toNat := le_antisymm (not_lt.mp hzy) (not_lt.mp hyz)
              simp [hyzeq ▸ hxy]
        · by_cases hyx : y.toNat < x.toNat
          · simp [hxy, hyx] at hab
          · have hxyeq : x.toNat = y.toNat := le_antisymm (not_lt.mp hyx) (not_lt.mp hxy)
            simp only [if_neg hxy, if_neg hyx] at hab
            by_cases hyz : y.toNat < z.toNat
            · simp [hxyeq ▸ hyz]
            · by_cases hzy : z.toNat < y.toNat
              · simp [hyz, hzy] at hbc
              · simp only [if_neg hyz, if_neg hzy] at hbc
                have h1 : ¬x.toNat < z.toNat := hxyeq ▸ hyz
                have h2 : ¬z.toNat < x.toNat := by
                  rw [hxyeq]; exact hzy
                simp [h1, h2, ih ys zs hab hbc]

theorem lexLe_antisymm : ∀ a b, lexLe a b = true → lexLe b a = true → a = b := by
  intro a
  induction a with
  | nil =>
    intro b hab hba
    cases b with
    | nil => rfl
    | cons y ys => simp [lexLe] at hba
  | cons x xs ih =>
    intro b hab hba
    cases b with
    | nil => simp [lexLe] at hab
    | cons y ys =>
      simp only [lexLe] at hab hba
      by_cases hxy : x.toNat < y.toNat
      · simp [hxy, asymm hxy] at hba
      · by_cases hyx : y.toNat < x.toNat
        · simp [hxy, hyx] at hab
        · have hxyeq : x = y :=
            Char.ext (UInt32.ext (le_antisymm (not_lt.mp hyx) (not_lt.mp hxy)))
          simp only [if_neg hxy, if_neg hyx] at hab
          simp only [if_neg hyx, if_neg hxy] at hba
          rw [hxyeq, ih ys hab hba]

theorem strLeB_total (a b : String) : strLeB a b = true ∨ strLeB b a = true :=
  lexLe_total a.data b.data

theorem strLeB_trans (a b c : String) (h1 : strLeB a b = true) (h2 : strLeB b c = true) :
    strLeB a c = true :=
  lexLe_trans a.data b.data c.data h1 h2

theorem strLeB_antisymm (a b : String) (h1 : strLeB a b = true) (h2 : strLeB b a = true) :
    a = b := by
  cases a with
  | mk da =>
    cases b with
    | mk db =>
      have := lexLe_antisymm da db h1 h2
      simp [this]

/-! ## Insertion sort by key -/

theorem ordIns_perm {α : Type} (x : String × α) (l : List (String × α)) :
    (ordIns x l).Perm (x :: l) := by
  induction l with
  | nil => exact List.Perm.refl _
  | cons y l ih =>
    by_cases h : strLeB x.1 y.1
    · simp [ordIns, h]
    · simp only [ordIns, if_neg h]
      exact (ih.cons y).trans (List.Perm.swap x y l)

theorem sortK_perm {α : Type} (l : List (String × α)) : (sortK l).Perm l := by
  induction l with
  | nil => exact List.Perm.refl _
  | cons x l ih =>
    exact (ordIns_perm x (sortK l)).trans (ih.cons x)

theorem ordIns_pairwise {α : Type} (x : String × α) (l : List (String × α))
    (h : l.Pairwise (fun p q => keyLeB p q = true)) :
    (ordIns x l).Pairwise (fun p q => keyLeB p q = true) := by
  induction l with
  | nil => simp [ordIns]
  | cons y l ih =>
    rcases List.pairwise_cons.mp h with ⟨hy, hl⟩
    by_cases hxy : strLeB x.1 y.1
    · rw [show ordIns x (y :: l) = x :: y :: l by simp [ordIns, hxy]]
      refine List.pairwise_cons.mpr ⟨?_, h⟩
      intro q hq
      rcases List.mem_cons.mp hq with h1 | h1
      · show strLeB x.1 q.1 = true
        exact h1 ▸ hxy
      · exact strLeB_trans _ _ _ hxy (hy q h1)
    · rw [show ordIns x (y :: l) = y :: ordIns x l by simp [ordIns, hxy]]
      refine List.pairwise_cons.mpr ⟨?_, ih hl⟩
      intro q hq
      rcases List.mem_cons.mp ((ordIns_perm x l).mem_iff.mp hq) with h1 | h1
      · cases h1
        rcases strLeB_total x.1 y.1 with h2 | h2
        · exact absurd h2 hxy
        · exact h2
      · exact hy q h1

theorem sortK_pairwise {α : Type} (l : List (String × α)) :
    (sortK l).Pairwise (fun p q => keyLeB p q = true) := by
  induction l with
  | nil => simp [sortK]
  | cons x l ih => exact ordIns_pairwise x (sortK l) ih

theorem sortK_pairwise_keyLt {α : Type} (l : List (String × α))
    (hn : (l.map Prod.fst).Nodup) : (sortK l).Pairwise (keyLt (α := α)) := by
  have hperm : ((sortK l).map Prod.fst).Perm (l.map Prod.fst) := (sortK_perm l).map _
  have hn' : ((sortK l).map Prod.fst).Nodup := hperm.nodup_iff.mpr hn
  have hne : (sortK l).Pairwise (fun p q : String × α => p.1 ≠ q.1) :=
    (List.pairwise_map).mp hn'
  exact ((sortK_pairwise l).and hne).imp (fun h => ⟨h.1, h.2⟩)

theorem sortK_eq_of_perm {α : Type} (l₁ l₂ : List (String × α))
    (hn : (l₁.map Prod.fst).Nodup) (hp : l₁.Perm l₂) : sortK l₁ = sortK l₂ := by
  have hn₂ : (l₂.map Prod.fst).Nodup := (hp.map Prod.fst).nodup_iff.mp hn
  have hps : (sortK l₁).Perm (sortK l₂) :=
    ((sortK_perm l₁).trans hp).trans (sortK_perm l₂).symm
  have : IsAntisymm (String × α) (keyLt (α := α)) := by
    constructor
    intro a b hab hba
    exact absurd (strLeB_antisymm _ _ hab.1 hba.1) hab.2
  exact List.eq_of_perm_of_sorted hps (sortK_pairwise_keyLt l₁ hn) (sortK_pairwise_keyLt l₂ hn₂)

theorem ordIns_map_value {α β : Type} (f : String → α → β) (x : String × α)
    (l : List (String × α)) :
    ordIns (x.1, f x.1 x.2) (l.map (fun p => (p.1, f p.1 p.2)))
      = (ordIns x l).map (fun p => (p.1, f p.1 p.2)) := by
  induction l with
  | nil => simp [ordIns]
  | cons y l ih =>
    by_cases h : strLeB x.1 y.1
    · simp [ordIns, h]
    · simp [ordIns, h, ih]

theorem sortK_map_value {α β : Type} (f : String → α → β) (l : List (String × α)) :
    sortK (l.map (fun p => (p.1, f p.1 p.2))) = (sortK l).map (fun p => (p.1, f p.1 p.2)) := by
  induction l with
  | nil => simp [sortK]
  | cons x l ih =>
    simp only [List.map_cons, sortK, ih]
    exact ordIns_map_value f x (sortK l)

theorem map_fst_map_value {α β : Type} (f : String → α → β) (l : List (String × α)) :
    (l.map (fun p => (p.1, f p.1 p.2))).map Prod.fst = l.map Prod.fst := by
  induction l with
  | nil => rfl
  | cons x l ih => simp [ih]

/-! ## Tree and `PyVal` infrastructure -/

theorem ents_ind (P : Ents → Prop) (hnil : P .nil)
    (hcons : ∀ k t es, P es → P (.cons k t es)) : ∀ es, P es := by
  have main : ∀ n es, sizeOf es ≤ n → P es := by
    intro n
    induction n using Nat.strong_induction_on with
    | _ n ih =>
      intro es hle
      cases es with
      | nil => exact hnil
      | cons k t es =>
        refine hcons k t es (ih (sizeOf es) ?_ es (le_refl _))
        simp only [Ents.cons.sizeOf_spec] at hle
        omega
  exact fun es => main (sizeOf es) es (le_refl _)

theorem pents_ind (P : PEnts → Prop) (hnil : P .nil)
    (hcons : ∀ k v es, P es → P (.cons k v es)) : ∀ es, P es := by
  have main : ∀ n es, sizeOf es ≤ n → P es := by
    intro n
    induction n using Nat.strong_induction_on with
    | _ n ih =>
      intro es hle
      cases es with
      | nil => exact hnil
      | cons k v es =>
        refine hcons k v es (ih (sizeOf es) ?_ es (le_refl _))
        simp only [PEnts.cons.sizeOf_spec] at hle
        omega
  exact fun es => main (sizeOf es) es (le_refl _)

theorem toList_ofList (l : List (String × Tree)) : (Ents.ofList l).toList = l := by
  induction l with
  | nil => rfl
  | cons p l ih =>
    cases p with
    | mk k t => simp [Ents.ofList, Ents.toList, ih]

theorem ofList_toList (es : Ents) : Ents.ofList es.toList = es := by
  induction es using ents_ind with
  | hnil => rfl
  | hcons k t es ih => simp [Ents.toList, Ents.ofList, ih]

theorem ptoList_ofList (l : List (String × PyVal)) : (PEnts.ofList l).toList = l := by
  induction l with
  | nil => rfl
  | cons p l ih =>
    cases p with
    | mk k v => simp [PEnts.ofList, PEnts.toList, ih]

theorem pofList_toList (es : PEnts) : PEnts.ofList es.toList = es := by
  induction es using pents_ind with
  | hnil => rfl
  | hcons k v es ih => simp [PEnts.toList, PEnts.ofList, ih]

theorem entries_ofL (l : List (String × Tree)) : (Tree.ofL l).entries = l := by
  simp [Tree.ofL, Tree.entries, toList_ofList]

theorem tree_ext (t u : Tree) (h : t.entries = u.entries) : t = u := by
  cases t with
  | node es =>
    cases u with
    | node es' =>
      simp only [Tree.entries] at h
      have : Ents.ofList es.toList = Ents.ofList es'.toList := by rw [h]
      rw [ofList_toList, ofList_toList] at this
      rw [this]

theorem pyval_dict_ext (es es' : PEnts) (h : es.toList = es'.toList) :
    PyVal.dict es = PyVal.dict es' := by
  have : PEnts.ofList es.toList = PEnts.ofList es'.toList := by rw [h]
  rw [pofList_toList, pofList_toList] at this
  rw [this]

theorem mem_toList_sizeOf (es : Ents) : ∀ p ∈ es.toList, sizeOf p.2 < sizeOf es := by
  induction es using ents_ind with
  | hnil => intro p hp; simp [Ents.toList] at hp
  | hcons k t es ih =>
    intro p hp
    simp only [Ents.toList, List.mem_cons] at hp
    rcases hp with h | h
    · subst h
      simp only [Ents.cons.sizeOf_spec]
      omega
    · have := ih p h
      simp only [Ents.cons.sizeOf_spec]
      omega

theorem tree_strong_ind (P : Tree → Prop)
    (step : ∀ t : Tree, (∀ p ∈ t.entries, P p.2) → P t) : ∀ t, P t := by
  have main : ∀ n (t : Tree), sizeOf t ≤ n → P t := by
    intro n
    induction n using Nat.strong_induction_on with
    | _ n ih =>
      intro t ht
      refine step t ?_
      intro p hp
      cases t with
      | node es =>
        have h1 := mem_toList_sizeOf es p hp
        have h2 : sizeOf es < sizeOf (Tree.node es) := by
          simp only [Tree.node.sizeOf_spec]
          omega
        simp only [Tree.entries] at hp
        exact ih (sizeOf p.2) (by omega) p.2 (le_refl _)
  exact fun t => main (sizeOf t) t (le_refl _)

/-! ## Unfolding the mutual recursions through the list view -/

theorem canonTL_eq (es : Ents) :
    canonTL es = es.toList.map (fun p => (p.1, canonT p.2)) := by
  induction es using ents_ind with
  | hnil => rfl
  | hcons k t es ih => simp [canonTL, Ents.toList, ih]

theorem canonT_entries (t : Tree) :
    (canonT t).entries = sortK (t.entries.map (fun p => (p.1, canonT p.2))) := by
  cases t with
  | node es =>
    simp only [canonT, Tree.entries, toList_ofList, canonTL_eq]

theorem canonPL_eq (es : PEnts) :
    canonPL es = es.toList.map (fun p => (p.1, canonP p.2)) := by
  induction es using pents_ind with
  | hnil => rfl
  | hcons k v es ih => simp [canonPL, PEnts.toList, ih]

theorem canonP_dict (es : PEnts) :
    canonP (.dict es) = .dict (PEnts.ofList (sortK (es.toList.map (fun p => (p.1, canonP p.2))))) := by
  simp only [canonP, canonPL_eq]

theorem fillEnts_eq (es : Ents) :
    fillEnts es = es.toList.map (fun p => (p.1, fillv p.1 p.2)) := by
  induction es using ents_ind with
  | hnil => rfl
  | hcons k t es ih =>
    simp only [fillEnts, Ents.toList, List.map_cons, ih, fillv]

theorem fill_eq (t : Tree) :
    fill_leaf_values t = .dict (PEnts.ofList (t.entries.map (fun p => (p.1, fillv p.1 p.2)))) := by
  cases t with
  | node es =>
    simp only [fill_leaf_values, Tree.entries, fillEnts_eq]

theorem sortK_eq_nil_iff {α : Type} (l : List (String × α)) : sortK l = [] ↔ l = [] := by
  constructor
  · intro h
    have := (sortK_perm l).symm.length_eq
    rw [h] at this
    exact List.eq_nil_of_length_eq_zero
      (by simp only [List.length_nil] at this; exact this)
  · intro h
    simp [h, sortK]

/-! ## `insertP`: lookup and well-formedness lemmas -/

theorem entries_eq_nil_iff (t : Tree) : t.entries = [] ↔ t = .node .nil := by
  cases t with
  | node es =>
    cases es with
    | nil => simp [Tree.entries, Ents.toList]
    | cons k v es => simp [Tree.entries, Ents.toList]

theorem insertP_nil (t : Tree) : insertP t [] = t := by
  simp [insertP]

theorem alookup_insertP_other (t : Tree) (a k : String) (ps : List String) (hk : k ≠ a) :
    alookup (insertP t (a :: ps)).entries k = alookup t.entries k := by
  rcases h : alookup t.entries a with _ | sub
  · simp only [insertP, h]
    rw [entries_ofL]
    rcases h2 : alookup t.entries k with _ | v
    · rw [alookup_append_of_none _ _ _ h2]
      simp [alookup, Ne.symm hk]
    · exact alookup_append_of_some _ _ _ _ h2
  · simp only [insertP, h]
    rw [entries_ofL]
    exact alookup_asetv_other _ _ _ _ hk

theorem alookup_insertP_self_some (t : Tree) (a : String) (ps : List String) (sub : Tree)
    (h : alookup t.entries a = some sub) :
    alookup (insertP t (a :: ps)).entries a = some (insertP sub ps) := by
  simp only [insertP, h]
  rw [entries_ofL]
  exact alookup_asetv_self _ _ _ ((alookup_isSome_iff _ _).mp (by simp [h]))

theorem alookup_insertP_self_none (t : Tree) (a : String) (ps : List String)
    (h : alookup t.entries a = none) :
    alookup (insertP t (a :: ps)).entries a = some (insertP (Tree.ofL []) ps) := by
  simp only [insertP, h]
  rw [entries_ofL]
  rw [alookup_append_of_none _ _ _ h]
  simp [alookup]

theorem WFT_entries_nodup (t : Tree) (h : WFT t) : (t.entries.map Prod.fst).Nodup := by
  cases h with
  | node es hn hc => exact hn

theorem WFT_mem (t : Tree) (h : WFT t) : ∀ p ∈ t.entries, WFT p.2 := by
  cases h with
  | node es hn hc => exact hc

theorem WFT_ofL (l : List (String × Tree)) (hn : (l.map Prod.fst).Nodup)
    (hc : ∀ p ∈ l, WFT p.2) : WFT (Tree.ofL l) := by
  refine WFT.node _ ?_ ?_
  · rw [toList_ofList]; exact hn
  · rw [toList_ofList]; exact hc

theorem WFT_empty : WFT (Tree.ofL []) :=
  WFT_ofL [] (by simp) (by simp)

theorem WFT_alookup (t : Tree) (a : String) (sub : Tree) (ht : WFT t)
    (h : alookup t.entries a = some sub) : WFT sub :=
  WFT_mem t ht _ (alookup_mem _ _ _ h)

theorem WFT_insertP (ps : List String) : ∀ t, WFT t → WFT (insertP t ps) := by
  induction ps with
  | nil => intro t ht; simpa [insertP_nil] using ht
  | cons a ps ih =>
    intro t ht
    rcases h : alookup t.entries a with _ | sub
    · simp only [insertP, h]
      refine WFT_ofL _ ?_ ?_
      · simp only [List.map_append, List.map_cons, List.map_nil]
        rw [List.nodup_append]
        refine ⟨WFT_entries_nodup t ht, by simp, ?_⟩
        intro x hx
        simp only [List.mem_cons, List.not_mem_nil, or_false]
        intro he
        exact ((alookup_eq_none_iff _ _).mp h) (he ▸ hx)
      · intro p hp
        rcases List.mem_append.mp hp with h1 | h1
        · exact WFT_mem t ht p h1
        · simp only [List.mem_singleton] at h1
          subst h1
          exact ih _ WFT_empty
    · simp only [insertP, h]
      refine WFT_ofL _ ?_ ?_
      · rw [map_fst_asetv]
        exact WFT_entries_nodup t ht
      · intro p hp
        rcases mem_asetv _ _ _ _ hp with h1 | h1
        · subst h1
          exact ih _ (WFT_alookup t a sub ht h)
        · exact WFT_mem t ht p h1

/-! ## Canonical forms determine and are determined by pointwise lookups -/

theorem canonT_pointwise (t u : Tree) (ht : WFT t) (hu : WFT u) :
    canonT t = canonT u ↔
      ∀ k, (alookup t.entries k).map canonT = (alookup u.entries k).map canonT := by
  have key : ∀ v : Tree, WFT v → ∀ k,
      alookup (canonT v).entries k = (alookup v.entries k).map canonT := by
    intro v hv k
    rw [canonT_entries]
    have hn : ((v.entries.map (fun p => (p.1, canonT p.2))).map Prod.fst).Nodup := by
      rw [map_fst_map_value (fun _ s => canonT s)]
      exact WFT_entries_nodup v hv
    have hns : ((sortK (v.entries.map (fun p => (p.1, canonT p.2)))).map Prod.fst).Nodup :=
      (((sortK_perm (v.entries.map (fun p => (p.1, canonT p.2)))).map Prod.fst).nodup_iff).mpr hn
    rw [alookup_perm_of_nodup _ _ k hns (sortK_perm _)]
    exact alookup_map_value _ _ _
  constructor
  · intro h k
    rw [← key t ht k, ← key u hu k, h]
  · intro h
    apply tree_ext
    rw [canonT_entries, canonT_entries]
    have hnX : ((t.entries.map (fun p => (p.1, canonT p.2))).map Prod.fst).Nodup := by
      rw [map_fst_map_value (fun _ s => canonT s)]
      exact WFT_entries_nodup t ht
    have hnY : ((u.entries.map (fun p => (p.1, canonT p.2))).map Prod.fst).Nodup := by
      rw [map_fst_map_value (fun _ s => canonT s)]
      exact WFT_entries_nodup u hu
    refine sortK_eq_of_perm _ _ hnX ?_
    rw [List.perm_ext_iff_of_nodup (List.Nodup.of_map _ hnX) (List.Nodup.of_map _ hnY)]
    rintro ⟨k, v⟩
    constructor
    · intro hm
      have h1 : alookup (t.entries.map (fun p => (p.1, canonT p.2))) k = some v :=
        mem_alookup_of_nodup _ _ _ hnX hm
      rw [alookup_map_value] at h1
      rw [h k] at h1
      rw [← alookup_map_value (u.entries) canonT k] at h1
      exact alookup_mem _ _ _ h1
    · intro hm
      have h1 : alookup (u.entries.map (fun p => (p.1, canonT p.2))) k = some v :=
        mem_alookup_of_nodup _ _ _ hnY hm
      rw [alookup_map_value] at h1
      rw [← h k] at h1
      rw [← alookup_map_value (t.entries) canonT k] at h1
      exact alookup_mem _ _ _ h1

/-! ## Insertion respects canonical equality and commutes with itself -/

theorem canonT_insertP_congr (ps : List String) : ∀ t u, WFT t → WFT u →
    canonT t = canonT u → canonT (insertP t ps) = canonT (insertP u ps) := by
  induction ps with
  | nil =>
    intro t u _ _ h
    simpa [insertP_nil] using h
  | cons a ps ih =>
    intro t u ht hu h
    refine (canonT_pointwise _ _ (WFT_insertP _ t ht) (WFT_insertP _ u hu)).mpr ?_
    intro k
    by_cases hk : k = a
    · subst hk
      have hpt := (canonT_pointwise t u ht hu).mp h k
      rcases h1 : alookup t.entries k with _ | st
      · rcases h2 : alookup u.entries k with _ | su
        · rw [alookup_insertP_self_none _ _ _ h1, alookup_insertP_self_none _ _ _ h2]
        · rw [h1, h2] at hpt
          simp at hpt
      · rcases h2 : alookup u.entries k with _ | su
        · rw [h1, h2] at hpt
          simp at hpt
        · rw [h1, h2] at hpt
          have hc : canonT st = canonT su := by simpa using hpt
          rw [alookup_insertP_self_some _ _ _ _ h1, alookup_insertP_self_some _ _ _ _ h2]
          show some (canonT (insertP st ps)) = some (canonT (insertP su ps))
          exact congrArg some
            (ih st su (WFT_alookup t k st ht h1) (WFT_alookup u k su hu h2) hc)
    · rw [alookup_insertP_other _ _ _ _ hk, alookup_insertP_other _ _ _ _ hk]
      exact (canonT_pointwise t u ht hu).mp h k

theorem canonT_insertP_comm (ps : List String) : ∀ (qs : List String) (t : Tree), WFT t →
    canonT (insertP (insertP t ps) qs) = canonT (insertP (insertP t qs) ps) := by
  induction ps with
  | nil =>
    intro qs t _
    simp [insertP_nil]
  | cons a ps ih =>
    intro qs t ht
    cases qs with
    | nil => simp [insertP_nil]
    | cons b qs =>
      have wf1 : WFT (insertP (insertP t (a :: ps)) (b :: qs)) :=
        WFT_insertP _ _ (WFT_insertP _ _ ht)
      have wf2 : WFT (insertP (insertP t (b :: qs)) (a :: ps)) :=
        WFT_insertP _ _ (WFT_insertP _ _ ht)
      refine (canonT_pointwise _ _ wf1 wf2).mpr ?_
      intro k
      by_cases hka : k = a
      · subst hka
        by_cases hab : k = b
        · subst hab
          rcases h1 : alookup t.entries k with _ | sub
          · rw [alookup_insertP_self_some _ _ _ _
                (alookup_insertP_self_none t k ps h1),
              alookup_insertP_self_some _ _ _ _
                (alookup_insertP_self_none t k qs h1)]
            show some (canonT (insertP (insertP (Tree.ofL []) ps) qs))
              = some (canonT (insertP (insertP (Tree.ofL []) qs) ps))
            exact congrArg some (ih qs (Tree.ofL []) WFT_empty)
          · rw [alookup_insertP_self_some _ _ _ _
                (alookup_insertP_self_some t k ps sub h1),
              alookup_insertP_self_some _ _ _ _
                (alookup_insertP_self_some t k qs sub h1)]
            show some (canonT (insertP (insertP sub ps) qs))
              = some (canonT (insertP (insertP sub qs) ps))
            exact congrArg some (ih qs sub (WFT_alookup t k sub ht h1))
        · rw [alookup_insertP_other _ _ _ _ hab]
          rcases h1 : alookup t.entries k with _ | sub
          · rw [alookup_insertP_self_none t k ps h1,
              alookup_insertP_self_none (insertP t (b :: qs)) k ps
                (by rw [alookup_insertP_other _ _ _ _ hab]; exact h1)]
          · rw [alookup_insertP_self_some t k ps sub h1,
              alookup_insertP_self_some (insertP t (b :: qs)) k ps sub
                (by rw [alookup_insertP_other _ _ _ _ hab]; exact h1)]
      · by_cases hkb : k = b
        · subst hkb
          rcases h1 : alookup t.entries k with _ | sub
          · rw [alookup_insertP_self_none (insertP t (a :: ps)) k qs
                (by rw [alookup_insertP_other _ _ _ _ hka]; exact h1),
              alookup_insertP_other _ _ _ _ hka,
              alookup_insertP_self_none t k qs h1]
          · rw [alookup_insertP_self_some (insertP t (a :: ps)) k qs sub
                (by rw [alookup_insertP_other _ _ _ _ hka]; exact h1),
              alookup_insertP_other _ _ _ _ hka,
              alookup_insertP_self_some t k qs sub h1]
        · rw [alookup_insertP_other _ _ _ _ hkb, alookup_insertP_other _ _ _ _ hka,
            alookup_insertP_other _ _ _ _ hka, alookup_insertP_other _ _ _ _ hkb]

/-! ## Folding insertions: canonical form is permutation invariant -/

theorem WFT_fold (l : List String) : ∀ t, WFT t → WFT (l.foldl insert_item t) := by
  induction l with
  | nil => intro t ht; exact ht
  | cons x l ih =>
    intro t ht
    simp only [List.foldl_cons]
    exact ih _ (WFT_insertP _ _ ht)

theorem canonT_fold_congr (l : List String) : ∀ t u, WFT t → WFT u → canonT t = canonT u →
    canonT (l.foldl insert_item t) = canonT (l.foldl insert_item u) := by
  induction l with
  | nil => intro t u _ _ h; exact h
  | cons x l ih =>
    intro t u ht hu h
    simp only [List.foldl_cons]
    exact ih _ _ (WFT_insertP _ _ ht) (WFT_insertP _ _ hu)
      (canonT_insertP_congr (splitDot x) t u ht hu h)

theorem canonT_fold_perm (l₁ l₂ : List String) (hp : l₁.Perm l₂) : ∀ t, WFT t →
    canonT (l₁.foldl insert_item t) = canonT (l₂.foldl insert_item t) := by
  induction hp with
  | nil => intro t _; rfl
  | cons x hp ih =>
    intro t ht
    simp only [List.foldl_cons]
    exact ih _ (WFT_insertP _ _ ht)
  | swap x y l =>
    intro t ht
    simp only [List.foldl_cons]
    refine canonT_fold_congr l _ _
      (WFT_insertP _ _ (WFT_insertP _ _ ht)) (WFT_insertP _ _ (WFT_insertP _ _ ht)) ?_
    exact canonT_insertP_comm (splitDot y) (splitDot x) t ht
  | trans h1 h2 ih1 ih2 =>
    intro t ht
    exact (ih1 t ht).trans (ih2 t ht)

/-! ## Filling leaves respects canonical equality -/

theorem canonP_fill (t : Tree) :
    canonP (fill_leaf_values t) = fill_leaf_values (canonT t) := by
  induction t using tree_strong_ind with
  | step t ih =>
    rw [fill_eq t, fill_eq (canonT t), canonP_dict, ptoList_ofList, canonT_entries]
    rw [List.map_map]
    rw [show ((fun p : String × PyVal => (p.1, canonP p.2)) ∘
          (fun p : String × Tree => (p.1, fillv p.1 p.2)))
        = (fun p : String × Tree => (p.1, canonP (fillv p.1 p.2))) from rfl]
    rw [sortK_map_value (fun k v => canonP (fillv k v)) t.entries]
    rw [sortK_map_value (fun _ v => canonT v) t.entries]
    rw [List.map_map]
    rw [show ((fun p : String × Tree => (p.1, fillv p.1 p.2)) ∘
          (fun p : String × Tree => (p.1, canonT p.2)))
        = (fun p : String × Tree => (p.1, fillv p.1 (canonT p.2))) from rfl]
    have fillv_ne : ∀ (k : String) (v : Tree), v ≠ Tree.node Ents.nil →
        fillv k v = fill_leaf_values v := by
      intro k v hv
      rcases v with ⟨es⟩
      cases es with
      | nil => exact absurd rfl hv
      | cons a b c => rfl
    have hmaps : (sortK t.entries).map (fun p => (p.1, canonP (fillv p.1 p.2)))
        = (sortK t.entries).map (fun p => (p.1, fillv p.1 (canonT p.2))) := by
      refine List.map_congr_left ?_
      intro p hp
      have hpm : p ∈ t.entries := (sortK_perm t.entries).subset hp
      by_cases hleaf : p.2 = Tree.node Ents.nil
      · rw [hleaf]
        rfl
      · have hne : canonT p.2 ≠ Tree.node Ents.nil := by
          intro hcon
          have hce : (canonT p.2).entries = [] := by
            rw [hcon]
            rfl
          rw [canonT_entries, sortK_eq_nil_iff, List.map_eq_nil_iff] at hce
          exact hleaf ((entries_eq_nil_iff p.2).mp hce)
        rw [fillv_ne _ _ hleaf, fillv_ne _ _ hne, ih p hpm]
    rw [hmaps]

/-! ## Order independence of the sample context -/

theorem get_context_order_indep (l₁ l₂ : List String) (hp : l₁.Perm l₂) :
    canonP (fill_leaf_values (expand_list l₁)) = canonP (fill_leaf_values (expand_list l₂)) := by
  rw [canonP_fill, canonP_fill]
  simp only [expand_list]
  rw [canonT_fold_perm l₁ l₂ hp (Tree.ofL []) WFT_empty]

/-! ## The template-variable scanner -/

theorem mem_stripSpaces (l : List Char) (c : Char) (h : c ∈ stripSpaces l) : c ∈ l := by
  simp only [stripSpaces, List.mem_reverse] at h
  have h1 := (List.dropWhile_sublist (l := (l.dropWhile (fun c => c = ' ')).reverse)
    (p := fun c => c = ' ')).subset h
  rw [List.mem_reverse] at h1
  exact (List.dropWhile_sublist (l := l) (p := fun c => c = ' ')).subset h1

theorem findVarsF_class : ∀ fuel cs, ∀ v ∈ findVarsF fuel cs, ∀ c ∈ v, classChar c = true := by
  intro fuel cs
  induction fuel, cs using findVarsF.induct with
  | case1 => intro v hv; simp [findVarsF] at hv
  | case2 => intro v hv; simp [findVarsF] at hv
  | case3 fuel rest rest2 hdrop ih =>
    intro v hv
    simp only [findVarsF, hdrop] at hv
    rcases List.mem_cons.mp hv with h1 | h1
    · intro c hc
      exact List.mem_takeWhile_imp (h1 ▸ hc)
    · exact ih v h1
  | case4 fuel rest hdrop ih =>
    intro v hv
    simp only [findVarsF, hdrop] at hv
    exact ih v hv
  | case5 fuel c cs h ih =>
    intro v hv
    simp only [findVarsF] at hv
    exact ih v hv

theorem extract_vars_class (content : String) :
    ∀ v ∈ extract_vars content, ∀ c ∈ v.data, classChar c = true := by
  intro v hv c hc
  have hv1 := dedupKF_subset _ v hv
  rcases List.mem_map.mp hv1 with ⟨l, hl, hveq⟩
  rcases List.mem_map.mp hl with ⟨r, hr, hleq⟩
  subst hveq
  subst hleq
  have hc1 : c ∈ stripSpaces r := hc
  exact findVarsF_class _ _ r hr c (mem_stripSpaces r c hc1)

/-! ## The renderer on a single variable reference -/

theorem splitClose_append (inner rest : List Char) (h : ∀ c ∈ inner, c ≠ '}') :
    splitClose (inner ++ '}' :: '}' :: rest) = some (inner, rest) := by
  induction inner with
  | nil => rfl
  | cons c cs ih =>
    have hc : c ≠ '}' := h c (List.mem_cons_self _ _)
    rw [List.cons_append]
    rw [show splitClose (c :: (cs ++ '}' :: '}' :: rest))
        = (splitClose (cs ++ '}' :: '}' :: rest)).map (fun p => (c :: p.1, p.2)) by
      simp [splitClose, hc]]
    rw [ih (fun x hx => h x (List.mem_cons_of_mem _ hx))]
    rfl

theorem mk_data (s : String) : String.mk s.data = s := by
  cases s with
  | mk d => rfl

theorem renderTemplate_one_var (name s : String) (ctx : List (String × String))
    (hbrace : ∀ c ∈ name.data, c ≠ '}') (hstrip : stripSpaces name.data = name.data)
    (hctx : alookup ctx name = some s) :
    renderTemplate ("\x7b\x7b" ++ name ++ "\x7d\x7d") ctx true = escapeHtml s
    ∧ renderTemplate ("\x7b\x7b" ++ name ++ "\x7d\x7d") ctx false = s := by
  have hdata : ("\x7b\x7b" ++ name ++ "\x7d\x7d").data
      = '{' :: '{' :: (name.data ++ '}' :: '}' :: []) := by
    simp [String.data_append]
  have hlen : ("\x7b\x7b" ++ name ++ "\x7d\x7d").data.length = (name.data.length + 3) + 1 := by
    rw [hdata]
    simp
  have hrender : ∀ esc : Bool,
      renderTemplate ("\x7b\x7b" ++ name ++ "\x7d\x7d") ctx esc
        = String.mk ((if esc then escapeHtml s else s).data ++
            renderF (name.data.length + 3) [] ctx esc) := by
    intro esc
    rw [renderTemplate, hlen, hdata]
    rw [show renderF ((name.data.length + 3) + 1)
          ('{' :: '{' :: (name.data ++ '}' :: '}' :: [])) ctx esc
        = match splitClose (name.data ++ '}' :: '}' :: []) with
          | some (inner, rem) =>
            (let v := (alookup ctx (String.mk (stripSpaces inner))).getD ""
             (if esc then escapeHtml v else v).data) ++ renderF (name.data.length + 3) rem ctx esc
          | none => '{' :: '{' :: (name.data ++ '}' :: '}' :: []) from rfl]
    rw [splitClose_append _ _ hbrace]
    simp only [hstrip, mk_data, hctx, Option.getD]
  constructor
  · rw [hrender true]
    rw [show renderF (name.data.length + 3) [] ctx true = [] by
      cases h : name.data.length + 3 with
      | zero => rfl
      | succ n => rfl]
    rw [List.append_nil, mk_data]
    simp
  · rw [hrender false]
    rw [show renderF (name.data.length + 3) [] ctx false = [] by
      cases h : name.data.length + 3 with
      | zero => rfl
      | succ n => rfl]
    rw [List.append_nil, mk_data]
    simp

/-! # Claim theorems -/

/-- C1: `AppmailMultiAlternatives.send` treats a transport return value > 0 as
success.  On success with `log_sent_emails` enabled it appends exactly one
`LoggedMessage` per address of the `to` list — each carrying the message's
rendered subject, plain body, HTML body and rendering context — and returns
the transport's count; with logging disabled, or a transport count of 0, no
records are created and the transport's count is returned unchanged. -/
theorem send_log_spec (m : AppmailMultiAlternatives) (fail_flag : Bool)
    (sent : Nat) (log : List LoggedMessage) :
    (0 < sent →
      m.send true fail_flag sent log
        = (sent, log ++ m.«to».map (fun recipient =>
            { «to» := recipient, user := m.user, template := some m.template,
              subject := m.subject, body := m.body, html := m.html,
              context := m.context })))
    ∧ (0 < sent →
        ((m.send true fail_flag sent log).2).length = log.length + m.«to».length)
    ∧ m.send false fail_flag sent log = (sent, log)
    ∧ m.send true fail_flag 0 log = (0, log) := by
  refine ⟨?_, ?_, ?_, ?_⟩
  · intro h
    simp [AppmailMultiAlternatives.send, Nat.pos_iff_ne_zero.mp h]
  · intro h
    simp [AppmailMultiAlternatives.send, Nat.pos_iff_ne_zero.mp h]
  · simp [AppmailMultiAlternatives.send]
  · simp [AppmailMultiAlternatives.send]

/-- Witness for C1: a concrete send with two recipients and transport count 2
logs exactly the two expected records; the disabled-logging and zero-count
sends log nothing. -/
theorem send_log_spec_witness :
    msgC1.send true false 2 [] = (2,
      [{ «to» := "a@example.com", user := some 7, template := some ({} : EmailTemplate),
         subject := "s", body := "b", html := "<p>h</p>", context := [("k", "v")] },
       { «to» := "b@example.com", user := some 7, template := some ({} : EmailTemplate),
         subject := "s", body := "b", html := "<p>h</p>", context := [("k", "v")] }])
    ∧ msgC1.send false false 2 [] = (2, [])
    ∧ msgC1.send true false 0 [] = (0, []) := by
  refine ⟨?_, ?_, ?_⟩
  · exact (send_log_spec msgC1 false 2 []).1 (by decide)
  · exact (send_log_spec msgC1 false 2 []).2.2.1
  · exact (send_log_spec msgC1 false 0 []).2.2.2

/-- C2: the subject and the plain-text body render with autoescaping off and
the HTML body renders with autoescaping on: on any template whose content is
a single variable reference, the HTML body renders the HTML-escaped context
value while the subject and plain body render it verbatim; and on the
round-trip example the HTML output escapes the ampersand of the context value
while the subject and plain-text outputs keep it literal. -/
theorem render_autoescape_spec :
    (∀ (t : EmailTemplate) (context : List (String × String)),
      t.render_subject context
        = renderTemplate t.subject (patch_context context CONTEXT_PROCESSORS) false)
    ∧ (∀ (t : EmailTemplate) (context : List (String × String)),
      t.render_body context "text/plain"
        = .ok (renderTemplate t.body_text (patch_context context CONTEXT_PROCESSORS) false))
    ∧ (∀ (t : EmailTemplate) (context : List (String × String)),
      t.render_body context "text/html"
        = .ok (renderTemplate t.body_html (patch_context context CONTEXT_PROCESSORS) true))
    ∧ (∀ (t : EmailTemplate) (name s : String) (context : List (String × String)),
      (∀ c ∈ name.data, c ≠ '}') → stripSpaces name.data = name.data →
      alookup (patch_context context CONTEXT_PROCESSORS) name = some s →
      t.subject = "\x7b\x7b" ++ name ++ "\x7d\x7d" →
      t.render_subject context = s)
    ∧ (∀ (t : EmailTemplate) (name s : String) (context : List (String × String)),
      (∀ c ∈ name.data, c ≠ '}') → stripSpaces name.data = name.data →
      alookup (patch_context context CONTEXT_PROCESSORS) name = some s →
      t.body_text = "\x7b\x7b" ++ name ++ "\x7d\x7d" →
      t.render_body context "text/plain" = .ok s)
    ∧ (∀ (t : EmailTemplate) (name s : String) (context : List (String × String)),
      (∀ c ∈ name.data, c ≠ '}') → stripSpaces name.data = name.data →
      alookup (patch_context context CONTEXT_PROCESSORS) name = some s →
      t.body_html = "\x7b\x7b" ++ name ++ "\x7d\x7d" →
      t.render_body context "text/html" = .ok (escapeHtml s))
    ∧ tmplC2.render_body ctxC2 "text/html" = .ok "<h1>Hello Test &amp; Company</h1>"
    ∧ tmplC2.render_body ctxC2 "text/plain" = .ok "Hello Test & Company"
    ∧ tmplC2.render_subject ctxC2 = "Hello Test & Company" := by
  refine ⟨fun _ _ => rfl, fun _ _ => rfl, fun _ _ => rfl, ?_, ?_, ?_, rfl, rfl, rfl⟩
  · intro t name s context hbrace hstrip hctx hsubj
    show renderTemplate t.subject (patch_context context CONTEXT_PROCESSORS) false = s
    rw [hsubj]
    exact (renderTemplate_one_var name s _ hbrace hstrip hctx).2
  · intro t name s context hbrace hstrip hctx hbody
    show Except.ok (renderTemplate t.body_text (patch_context context CONTEXT_PROCESSORS) false)
      = Except.ok s
    rw [hbody]
    rw [(renderTemplate_one_var name s _ hbrace hstrip hctx).2]
  · intro t name s context hbrace hstrip hctx hbody
    show Except.ok (renderTemplate t.body_html (patch_context context CONTEXT_PROCESSORS) true)
      = Except.ok (escapeHtml s)
    rw [hbody]
    rw [(renderTemplate_one_var name s _ hbrace hstrip hctx).1]

/-- Witness for C2: on the bare-variable template with the ampersand context
value the HTML body escapes and the subject and plain body do not. -/
theorem render_autoescape_spec_witness :
    tmplVar.render_body ctxC2 "text/html" = .ok (escapeHtml "Test & Company")
    ∧ tmplVar.render_body ctxC2 "text/plain" = .ok "Test & Company"
    ∧ tmplVar.render_subject ctxC2 = "Test & Company" :=
  ⟨render_autoescape_spec.2.2.2.2.2.1 tmplVar "first_name" "Test & Company" ctxC2
      (by decide) (by decide) (by decide) rfl,
   render_autoescape_spec.2.2.2.2.1 tmplVar "first_name" "Test & Company" ctxC2
      (by decide) (by decide) (by decide) rfl,
   render_autoescape_spec.2.2.2.1 tmplVar "first_name" "Test & Company" ctxC2
      (by decide) (by decide) (by decide) rfl⟩

/-- C3: `get_context` is the composition of leaf filling, tree expansion and
variable extraction; as a Python dict (canonical form) its result is
invariant under any permutation of the extracted references; and whenever the
extracted references are exactly `a` and `b.c`, in either order, the sample
context is `{"a": "A", "b": {"c": "C"}}`. -/
theorem get_context_spec :
    (∀ content, get_context content = fill_leaf_values (expand_list (extract_vars content)))
    ∧ (∀ l₁ l₂ : List String, l₁.Perm l₂ →
        canonP (fill_leaf_values (expand_list l₁)) = canonP (fill_leaf_values (expand_list l₂)))
    ∧ (∀ content, (extract_vars content).Perm ["a", "b.c"] →
        canonP (get_context content) = sampleAB) := by
  refine ⟨fun _ => rfl, get_context_order_indep, ?_⟩
  intro content hp
  show canonP (fill_leaf_values (expand_list (extract_vars content))) = sampleAB
  rw [get_context_order_indep _ _ hp]
  rfl

/-- Witness for C3: on content holding the two references in the reversed
order the sample context is the expected dict. -/
theorem get_context_spec_witness :
    canonP (get_context "{{b.c}} {{a}}") = sampleAB :=
  get_context_spec.2.2 "{{b.c}} {{a}}" (by decide)

/-- C5: `clean` attempts the plain body, HTML body and subject renders (as
`template_clean` wires them to the template's fields), keys recoverable
render failures by field (`body_text`, `body_html`, `subject`), aggregates
every failed field into one combined validation error instead of failing
fast, propagates any non-recoverable exception unhandled — even when an
earlier field failed recoverably — and raises nothing when all three renders
succeed. -/
theorem clean_spec :
    (∀ (engine : String → RenderOutcome) (t : EmailTemplate),
      template_clean engine t
        = clean (engine t.body_text) (engine t.body_html) (engine t.subject))
    ∧ (∀ m1 m3, clean (.invalid m1) .ok (.notFound m3)
        = .validationError [("body_text", m1), ("subject", "Template does not exist: " ++ m3)])
    ∧ (∀ m1 m2 m3, clean (.notFound m1) (.invalid m2) (.invalid m3)
        = .validationError [("body_text", "Template does not exist: " ++ m1),
            ("body_html", m2), ("subject", m3)])
    ∧ (∀ m r2 r3, clean (.fatal m) r2 r3 = .uncaught m)
    ∧ (∀ m r3, clean .ok (.fatal m) r3 = .uncaught m)
    ∧ (∀ m1 m r3, clean (.invalid m1) (.fatal m) r3 = .uncaught m)
    ∧ (∀ m, clean .ok .ok (.fatal m) = .uncaught m)
    ∧ clean .ok .ok .ok = .ok :=
  ⟨fun _ _ => rfl, fun _ _ => rfl, fun _ _ _ => rfl, fun _ _ _ => rfl, fun _ _ => rfl,
   fun _ _ _ => rfl, fun _ => rfl, rfl⟩

/-- C9: resending a `LoggedMessage` whose template reference is null fails
with the `AttributeError` raised while rebuilding the message, for every
logging flag, transport outcome and log state — never a silent no-op. -/
theorem resend_null_template (lm : LoggedMessage) (log_flag fail_flag : Bool)
    (sent : Nat) (log : List LoggedMessage) (h : lm.template = none) :
    lm.resend log_flag fail_flag sent log
      = .error "AttributeError: NoneType object has no attribute render_subject" := by
  simp [LoggedMessage.resend, LoggedMessage.as_message_object,
    AppmailMultiAlternatives.init, h, Except.map]

/-- Witness for C9 at a concrete orphaned logged message. -/
theorem resend_null_template_witness :
    lmOrphan.resend true false 1 []
      = .error "AttributeError: NoneType object has no attribute render_subject" :=
  resend_null_template lmOrphan true false 1 [] rfl

/-- C10: with `supports_attachments = False`, `create_message` still accepts
an envelope whose `attachments` value is the empty list — the check rejects
only truthy attachment values. -/
theorem create_message_empty_attachments (t : EmailTemplate)
    (context : List (String × String)) (kw : EmailKwargs)
    (hs : kw.subject = none) (hb : kw.body = none) (ha : kw.alternatives = none)
    (hatt : kw.attachments = some []) (_hsup : t.supports_attachments = false) :
    (t.create_message context kw).isOk = true := by
  simp [EmailTemplate.create_message, hs, hb, ha, hatt, truthyList,
    AppmailMultiAlternatives.init, Except.isOk, Except.toBool]

/-- Witness for C10: empty attachments on a non-attachment template compose
successfully. -/
theorem create_message_empty_attachments_witness :
    (({} : EmailTemplate).create_message [] kwEmptyAttach).isOk = true :=
  create_message_empty_attachments {} [] kwEmptyAttach rfl rfl rfl rfl rfl

/-- C4 (as stated) is falsified by the empty attachments list: `attachments`
is supplied in the envelope, the template does not support attachments, and
composition still succeeds. -/
theorem create_message_attachments_counterexample :
    kwEmptyAttach.attachments.isSome = true
    ∧ ({} : EmailTemplate).supports_attachments = false
    ∧ (({} : EmailTemplate).create_message [] kwEmptyAttach).isOk = true :=
  ⟨rfl, rfl, rfl⟩

/-- C4 (amended): `create_message` fails with an invalid-argument `ValueError`
whenever the caller supplies `subject`, `body` or `alternatives`, and
whenever a non-empty `attachments` value is supplied on a template with
`supports_attachments = False`, regardless of the other fields. -/
theorem create_message_rejects (t : EmailTemplate) (context : List (String × String))
    (kw : EmailKwargs) :
    ((kw.subject.isSome = true ∨ kw.body.isSome = true ∨ kw.alternatives.isSome = true) →
      ∃ e, t.create_message context kw = .error e)
    ∧ (∀ a rest, kw.attachments = some (a :: rest) → t.supports_attachments = false →
      ∃ e, t.create_message context kw = .error e) := by
  constructor
  · intro h
    by_cases h1 : kw.subject.isSome = true
    · exact ⟨"Invalid argument: subject is set from the template.",
        by simp [EmailTemplate.create_message, h1]⟩
    · by_cases h2 : kw.body.isSome = true
      · exact ⟨"Invalid argument: body is set from the template.",
          by simp [EmailTemplate.create_message, h1, h2]⟩
      · have h3 : kw.alternatives.isSome = true := by
          rcases h with h | h | h
          · exact absurd h h1
          · exact absurd h h2
          · exact h
        exact ⟨"Invalid argument: alternatives is set from the template.",
          by simp [EmailTemplate.create_message, h1, h2, h3]⟩
  · intro a rest hatt hsup
    by_cases h1 : kw.subject.isSome = true
    · exact ⟨"Invalid argument: subject is set from the template.",
        by simp [EmailTemplate.create_message, h1]⟩
    · by_cases h2 : kw.body.isSome = true
      · exact ⟨"Invalid argument: body is set from the template.",
          by simp [EmailTemplate.create_message, h1, h2]⟩
      · by_cases h3 : kw.alternatives.isSome = true
        · exact ⟨"Invalid argument: alternatives is set from the template.",
            by simp [EmailTemplate.create_message, h1, h2, h3]⟩
        · exact ⟨"Email template does not support attachments.",
            by simp [EmailTemplate.create_message, h1, h2, h3, hatt, truthyList, hsup]⟩

/-- Witness for the amended C4: a supplied `subject` and a one-element
attachments list on a non-attachment template are both rejected. -/
theorem create_message_rejects_witness :
    (∃ e, (({} : EmailTemplate).create_message [] kwSubject) = .error e)
    ∧ (∃ e, (({} : EmailTemplate).create_message [] kwOneAttach) = .error e) :=
  ⟨(create_message_rejects {} [] kwSubject).1 (Or.inl rfl),
   (create_message_rejects {} [] kwOneAttach).2 "file.txt" [] rfl rfl⟩

/-- C6 (as stated) is falsified on `is_active`: the clone of an active
template is itself active, not "marked inactive". -/
theorem clone_keeps_is_active_counterexample :
    tmplSaved.is_active = true ∧ (tmplSaved.clone dbSaved).1.is_active = true :=
  ⟨rfl, rfl⟩

/-- C6 (amended): cloning a saved template yields a new record with
`version + 1`, the same `is_active` flag as the original (the clone is not
deactivated), the same name, language and content fields, and a fresh,
distinct primary key; the original row is unchanged. -/
theorem clone_spec (t : EmailTemplate) (db : TemplateDb) (k : Nat)
    (hpk : t.pk = some k) (hk : k < db.next_pk) :
    (t.clone db).1.version = t.version + 1
    ∧ (t.clone db).1.is_active = t.is_active
    ∧ (t.clone db).1.name = t.name
    ∧ (t.clone db).1.language = t.language
    ∧ (t.clone db).1.description = t.description
    ∧ (t.clone db).1.subject = t.subject
    ∧ (t.clone db).1.body_text = t.body_text
    ∧ (t.clone db).1.body_html = t.body_html
    ∧ (t.clone db).1.from_email = t.from_email
    ∧ (t.clone db).1.reply_to = t.reply_to
    ∧ (t.clone db).1.supports_attachments = t.supports_attachments
    ∧ (t.clone db).1.pk = some db.next_pk
    ∧ (t.clone db).1.pk ≠ t.pk
    ∧ alookup (t.clone db).2.rows k = alookup db.rows k := by
  have hclone : t.clone db
      = ({ t with
            pk := some db.next_pk
            version := t.version + 1
            test_context := get_context (t.subject ++ t.body_text ++ t.body_html) },
         { rows := db.rows
            ++ [(db.next_pk,
                 { t with
                    pk := some db.next_pk
                    version := t.version + 1
                    test_context := get_context (t.subject ++ t.body_text ++ t.body_html) })]
           next_pk := db.next_pk + 1 }) := by
    simp [EmailTemplate.clone, EmailTemplate.save]
  rw [hclone]
  refine ⟨rfl, rfl, rfl, rfl, rfl, rfl, rfl, rfl, rfl, rfl, rfl, rfl, ?_, ?_⟩
  · rw [hpk]
    simp only [ne_eq, Option.some.injEq]
    omega
  · rcases h : alookup db.rows k with _ | row
    · rw [alookup_append_of_none _ _ _ h]
      have : db.next_pk ≠ k := by omega
      simp [alookup, this]
    · exact alookup_append_of_some _ _ _ _ h

/-- Witness for the amended C6 on the concrete saved template. -/
theorem clone_spec_witness :
    (tmplSaved.clone dbSaved).1.version = tmplSaved.version + 1
    ∧ (tmplSaved.clone dbSaved).1.is_active = tmplSaved.is_active
    ∧ (tmplSaved.clone dbSaved).1.pk = some dbSaved.next_pk
    ∧ alookup (tmplSaved.clone dbSaved).2.rows 1 = alookup dbSaved.rows 1 := by
  obtain ⟨h1, h2, _, _, _, _, _, _, _, _, _, h12, _, h14⟩ :=
    clone_spec tmplSaved dbSaved 1 rfl (by decide)
  exact ⟨h1, h2, h12, h14⟩

/-- C7 (as stated) is falsified by an inactive template: a row exactly
matching the (name, language, version) triple exists, yet the lookup fails
with `DoesNotExist`, because `version` filters on `active()` first. -/
theorem version_get_counterexample :
    EmailTemplateQuerySet.version dbInactive "welcome" 0 "en"
      = .error "EmailTemplate matching query does not exist."
    ∧ (dbInactive.rows.map Prod.snd).any
        (fun t => t.name == "welcome" && t.language == "en" && t.version == 0) = true :=
  ⟨rfl, rfl⟩

/-- C7 (amended): under the uniqueness constraint on (name, language,
version), `EmailTemplateQuerySet.version` returns exactly the active template
matching the triple, and fails with `DoesNotExist` exactly when no active
template matches; absence of an active match is the only failure. -/
theorem version_get_spec (db : TemplateDb) (n l : String) (v : Int)
    (hu : ((db.rows.map Prod.snd).map templateKey).Nodup) :
    (∀ t, EmailTemplateQuerySet.version db n v l = .ok t ↔
      (t ∈ db.rows.map Prod.snd ∧ t.is_active = true ∧ t.name = n ∧ t.language = l
        ∧ t.version = v))
    ∧ (EmailTemplateQuerySet.version db n v l
        = .error "EmailTemplate matching query does not exist." ↔
      ¬ ∃ t, t ∈ db.rows.map Prod.snd ∧ t.is_active = true ∧ t.name = n
        ∧ t.language = l ∧ t.version = v) := by
  have hPt : ∀ t : EmailTemplate,
      (t.is_active && t.name == n && t.language == l && t.version == v) = true ↔
      (t.is_active = true ∧ t.name = n ∧ t.language = l ∧ t.version = v) := by
    intro t
    simp [Bool.and_eq_true, and_assoc]
  have hmulti : ∀ t₁ t₂ rest2,
      (db.rows.map Prod.snd).filter
          (fun t => t.is_active && t.name == n && t.language == l && t.version == v)
        ≠ t₁ :: t₂ :: rest2 := by
    intro t₁ t₂ rest2 hf
    have hsub : (((db.rows.map Prod.snd).filter
          (fun t => t.is_active && t.name == n && t.language == l && t.version == v)).map
            templateKey).Sublist ((db.rows.map Prod.snd).map templateKey) :=
      (List.filter_sublist _).map templateKey
    have hnd := hu.sublist hsub
    rw [hf] at hnd
    simp only [List.map_cons, List.nodup_cons] at hnd
    have ht₁ : t₁ ∈ (db.rows.map Prod.snd).filter
        (fun t => t.is_active && t.name == n && t.language == l && t.version == v) := by
      rw [hf]; exact List.mem_cons_self _ _
    have ht₂ : t₂ ∈ (db.rows.map Prod.snd).filter
        (fun t => t.is_active && t.name == n && t.language == l && t.version == v) := by
      rw [hf]; exact List.mem_cons_of_mem _ (List.mem_cons_self _ _)
    have hp₁ := (hPt t₁).mp (List.mem_filter.mp ht₁).2
    have hp₂ := (hPt t₂).mp (List.mem_filter.mp ht₂).2
    have hkey : templateKey t₁ = templateKey t₂ := by
      simp [templateKey, hp₁.2.1, hp₁.2.2.1, hp₁.2.2.2, hp₂.2.1, hp₂.2.2.1, hp₂.2.2.2]
    exact hnd.1 (by rw [hkey]; exact List.mem_cons_self _ _)
  rcases hf : (db.rows.map Prod.snd).filter
      (fun t => t.is_active && t.name == n && t.language == l && t.version == v)
    with _ | ⟨t₁, rest⟩
  · have hver : EmailTemplateQuerySet.version db n v l
        = .error "EmailTemplate matching query does not exist." := by
      unfold EmailTemplateQuerySet.version
      rw [hf]
    constructor
    · intro t
      rw [hver]
      constructor
      · intro h
        exact absurd h (by simp)
      · rintro ⟨hmem, hact, hname, hlang, hveq⟩
        have : t ∈ (db.rows.map Prod.snd).filter
            (fun t => t.is_active && t.name == n && t.language == l && t.version == v) :=
          List.mem_filter.mpr ⟨hmem, (hPt t).mpr ⟨hact, hname, hlang, hveq⟩⟩
        rw [hf] at this
        exact absurd this (by simp)
    · rw [hver]
      simp only [true_iff]
      rintro ⟨t, hmem, hact, hname, hlang, hveq⟩
      have : t ∈ (db.rows.map Prod.snd).filter
          (fun t => t.is_active && t.name == n && t.language == l && t.version == v) :=
        List.mem_filter.mpr ⟨hmem, (hPt t).mpr ⟨hact, hname, hlang, hveq⟩⟩
      rw [hf] at this
      exact absurd this (by simp)
  · rcases rest with _ | ⟨t₂, rest2⟩
    · have hver : EmailTemplateQuerySet.version db n v l = .ok t₁ := by
        unfold EmailTemplateQuerySet.version
        rw [hf]
      have ht₁ : t₁ ∈ (db.rows.map Prod.snd).filter
          (fun t => t.is_active && t.name == n && t.language == l && t.version == v) := by
        rw [hf]; exact List.mem_cons_self _ _
      have hp₁m := List.mem_filter.mp ht₁
      have hp₁ := (hPt t₁).mp hp₁m.2
      constructor
      · intro t
        rw [hver]
        constructor
        · intro h
          have : t₁ = t := by
            injection h
          subst this
          exact ⟨hp₁m.1, hp₁⟩
        · rintro ⟨hmem, hact, hname, hlang, hveq⟩
          have : t ∈ (db.rows.map Prod.snd).filter
              (fun t => t.is_active && t.name == n && t.language == l && t.version == v) :=
            List.mem_filter.mpr ⟨hmem, (hPt t).mpr ⟨hact, hname, hlang, hveq⟩⟩
          rw [hf] at this
          simp only [List.mem_singleton] at this
          rw [this]
      · rw [hver]
        constructor
        · intro h
          exact absurd h (by simp)
        · intro hnone
          exact absurd ⟨t₁, hp₁m.1, hp₁⟩ hnone
    · exact absurd hf (hmulti t₁ t₂ rest2)

/-- Witness for the amended C7: the active saved template is found by its
exact triple, and the lookup on the inactive-only table reports absence. -/
theorem version_get_spec_witness :
    EmailTemplateQuerySet.version dbSaved "welcome" 0 "en" = .ok tmplSaved := by
  refine ((version_get_spec dbSaved "welcome" "en" 0 (by decide)).1 tmplSaved).mpr ?_
  exact ⟨by simp [dbSaved], rfl, rfl, rfl, rfl⟩

/-- C8 (as stated) is falsified by the left square bracket, which the
character class of `TEMPLATE_VARS` accepts: the extracted path `a[b` is not
made of letters, dots and underscores only. -/
theorem extract_vars_counterexample :
    extract_vars "{{a[b}}" = ["a[b"]
    ∧ '[' ∈ ("a[b" : String).data
    ∧ ¬(('[' = '.') ∨ ('[' = '_') ∨ ('a' ≤ '[' ∧ '[' ≤ 'z') ∨ ('A' ≤ '[' ∧ '[' ≤ 'Z')) := by
  refine ⟨by decide, by decide, by decide⟩

/-- C8 (amended): `extract_vars` returns a deduplicated collection of the
`{{ ... }}` references whose content lies in the regex character class
(spaces, dots, underscores, left square brackets and lowercase letters, with
surrounding spaces stripped) — in particular no filter pipe or tag character
is ever part of a match; dotted paths are extracted and filter expressions,
tags and uppercase names are ignored. -/
theorem extract_vars_spec :
    (∀ content, (extract_vars content).Nodup)
    ∧ (∀ content, ∀ v ∈ extract_vars content, ∀ c ∈ v.data, classChar c = true)
    ∧ (∀ content, ∀ v ∈ extract_vars content, ∀ c ∈ v.data, c ≠ '|' ∧ c ≠ '%')
    ∧ extract_vars "{{one}} and {{ two.three }} and {{one}}" = ["two.three", "one"]
    ∧ extract_vars "{{ a|upper }}{% tag %}{{A}}" = [] := by
  refine ⟨fun _ => nodup_dedupKF _, extract_vars_class, ?_, by decide, by decide⟩
  intro content v hv c hc
  have hcl := extract_vars_class content v hv c hc
  constructor
  · intro he
    rw [he] at hcl
    exact absurd hcl (by decide)
  · intro he
    rw [he] at hcl
    exact absurd hcl (by decide)

/-- Witness for the amended C8 on a concrete scan. -/
theorem extract_vars_spec_witness :
    (extract_vars "{{a}} {{b.c}}").Nodup
    ∧ (∀ c ∈ ("b.c" : String).data, classChar c = true) :=
  ⟨extract_vars_spec.1 "{{a}} {{b.c}}",
   extract_vars_spec.2.1 "{{a}} {{b.c}}" "b.c" (by decide)⟩

end Appmail
